import Mathlib

/-!
Verification of the Edit Targeting & Context Assembly Engine.

This file gives a shallow embedding of the engine's core functions —
`buildLocalContext`, `resolveImportPath`, `getFileContents`, `formatFilesForAI`
(from `lib/context-selector.ts`), the conversation-memory store
(`lib/conversation-memory.ts`), and the search-target selector — and proves
the behavioural properties stated in the specification.

Conventions of the embedding:
* JavaScript strings are modelled by Lean `String`; `s.length` counts
  characters (the code never splits surrogate pairs, so the abstraction is
  faithful for the properties proved here).
* JavaScript `Set` insertion is modelled by `setAdd` (append if absent),
  which preserves insertion order exactly as `Set` iteration does.
* JavaScript objects used as string-keyed maps are modelled by association
  lists; `lookup` models property access, `jsObjInsert` models assignment.
* Runtime facilities with no bearing on the verified properties
  (`Date.prototype.toLocaleTimeString` and the two regular-expression tests
  in `analyzeUserPreferences`) are abstract parameters (`JsEnv`), and all
  theorems are proved for every instantiation of them.
-/

namespace LovableSpec

/-! ### JavaScript-style string helpers -/
/-- Model of `String.prototype.startsWith`. -/
def strStartsWith (s pre : String) : Bool := pre.data.isPrefixOf s.data

/-- Model of `String.prototype.endsWith`. -/
def strEndsWith (s suf : String) : Bool := suf.data.isSuffixOf s.data

/-- Contiguous-sublist check on character lists. -/
def listInfixCheck (sub : List Char) : List Char → Bool
  | [] => sub.isEmpty
  | c :: rest => sub.isPrefixOf (c :: rest) || listInfixCheck sub rest

/-- Model of `String.prototype.includes`. -/
def strContains (s sub : String) : Bool := listInfixCheck sub.data s.data

/-- Model of `String.prototype.substring(0, n)`. -/
def jsSubstring (s : String) (n : Nat) : String := String.mk (s.data.take n)

/-- Model of `Array.prototype.join(sep)`. -/
def joinSep (sep : String) : List String → String
  | [] => ""
  | [s] => s
  | s :: t :: rest => s ++ sep ++ joinSep sep (t :: rest)

/-- Model of `Array.prototype.join('\n')` as used on the section arrays. -/
def joinNL (l : List String) : String := joinSep "\n" l

/-- Model of `Array.prototype.slice(-n)` (the `n` most recent entries). -/
def lastN {α : Type} (n : Nat) (l : List α) : List α := l.drop (l.length - n)

/-- Helper for `splitChar`: accumulate the current segment (reversed). -/
def splitCharAux (sep : Char) : List Char → List Char → List (List Char)
  | [], cur => [cur.reverse]
  | x :: rest, cur =>
    if x = sep then cur.reverse :: splitCharAux sep rest []
    else splitCharAux sep rest (x :: cur)

/-- Model of `String.prototype.split(sep)` for a one-character separator. -/
def splitChar (sep : Char) (s : String) : List String :=
  (splitCharAux sep s.data []).map String.mk

/-- Model of `String.prototype.toLowerCase`. -/
def strToLower (s : String) : String := String.mk (s.data.map Char.toLower)

/-- Model of `Set.prototype.add` on an insertion-ordered set. -/
def setAdd (s : List String) (x : String) : List String :=
  if x ∈ s then s else s ++ [x]

/-- Model of the JavaScript `||` default on a possibly-absent, possibly-empty
string (`''` is falsy, so it also falls back to the default). -/
def jsOrDefault (o : Option String) (d : String) : String :=
  match o with
  | some s => if s = "" then d else s
  | none => d

/-- Model of assignment `obj[k] = v` on a string-keyed object: an existing key
keeps its position and is overwritten, a new key is appended. -/
def jsObjInsert (obj : List (String × String)) (k v : String) : List (String × String) :=
  if k ∈ obj.map Prod.fst then
    obj.map (fun kv => if kv.1 = k then (kv.1, v) else kv)
  else obj ++ [(k, v)]

/-! ### Manifest data model (types/file-manifest.ts, fields used by the engine) -/
/-- One import specifier recorded for a file. -/
structure ImportInfo where
  source : String
  isLocal : Bool
deriving DecidableEq, Repr

/-- Component metadata recorded for a file. -/
structure ComponentInfo where
  name : String
  childComponents : List String
deriving DecidableEq, Repr

/-- Per-file record of the manifest. -/
structure FileInfo where
  content : String
  imports : List ImportInfo
  componentInfo : Option ComponentInfo
deriving DecidableEq, Repr

/-- Node of the component-import graph. -/
structure ComponentTreeNode where
  file : String
  imports : List String
  importedBy : List String
deriving DecidableEq, Repr

/-- The project manifest: path-keyed file records and the component tree. -/
structure FileManifest where
  files : List (String × FileInfo)
  componentTree : List (String × ComponentTreeNode)
deriving DecidableEq, Repr

/-! ### Import path resolution (`resolveImportPath`, context-selector.ts) -/
/-- `fromFile.substring(0, fromFile.lastIndexOf('/'))`: the directory of
the file doing the importing (empty when the path has no separator). -/
def dirOf (fromFile : String) : String :=
  String.mk (((fromFile.data.reverse.dropWhile (fun c => c ≠ '/')).drop 1).reverse)

/-- The inner `resolvePath` helper: split both paths on `/`, drop empty
segments, then apply the relative segments (`..` pops, `.` is a no-op,
anything else pushes). -/
def resolvePathSegs (base relative : String) : String :=
  let parts := (splitChar '/' base).filter (fun p => p != "")
  let relativeParts := (splitChar '/' relative).filter (fun p => p != "")
  let finalParts := relativeParts.foldl
    (fun parts part =>
      if part = ".." then parts.dropLast
      else if part = "." then parts
      else parts ++ [part])
    parts
  "/" ++ joinSep "/" finalParts

/-- Helper for `normalizePath`: collapse runs of `/` (the flag records whether
the previous character was a slash). -/
def collapseSlashes (prevSlash : Bool) : List Char → List Char
  | [] => []
  | c :: rest =>
    if c = '/' then
      if prevSlash then collapseSlashes true rest
      else c :: collapseSlashes true rest
    else c :: collapseSlashes false rest

/-- Model of `possiblePath.replace(/\/+/g, '/')`. -/
def normalizePath (p : String) : String := String.mk (collapseSlashes false p.data)

/-- The fixed extension candidate order of `resolveImportPath`. -/
def possibleExtensionsList : List String := [".jsx", ".tsx", ".js", ".ts"]

/-- `resolveImportPath(fromFile, importSource, allFiles)`: resolve a
relative specifier against the importing file's directory and return the
first extension candidate present in `allFiles`, or `none`. -/
def resolveImportPath (fromFile importSource : String) (allFiles : List String) :
    Option String :=
  if !(strStartsWith importSource ".") then none
  else
    let fromDir := dirOf fromFile
    let possiblePaths :=
      if strEndsWith importSource "/" then
        let b := resolvePathSegs fromDir importSource
        [b ++ "/index.jsx", b ++ "/index.tsx", b ++ "/index.js", b ++ "/index.ts"]
      else
        let resolved := resolvePathSegs fromDir importSource
        if possibleExtensionsList.any (fun ext => strEndsWith importSource ext) then
          [resolved]
        else
          possibleExtensionsList.map (fun ext => resolved ++ ext)
    possiblePaths.findSome? (fun p =>
      let normalized := normalizePath p
      if normalized ∈ allFiles then some normalized else none)

/-! ### Local context construction (`buildLocalContext`, context-selector.ts) -/
/-- Predicate selecting the application entry component file. -/
def isAppFile (f : String) : Bool :=
  strEndsWith f "App.jsx" || strEndsWith f "App.tsx"

/-- Predicate selecting the design-system configuration file. -/
def isTailwindConfig (f : String) : Bool :=
  strEndsWith f "tailwind.config.js" || strEndsWith f "tailwind.config.ts"

/-- Predicate selecting the global stylesheet. -/
def isGlobalCss (f : String) : Bool :=
  strEndsWith f "index.css" || strEndsWith f "globals.css"

/-- `if (found && !primaryFiles.includes(found)) essentialFiles.push(found)`. -/
def keepEssential (primaryFiles : List String) (cand : Option String) : List String :=
  match cand with
  | some f => if f ∈ primaryFiles then [] else [f]
  | none => []

/-- The `essentialFiles` array of `buildLocalContext`: entry component, then
tailwind config, then global stylesheet, each only when found and not already
a primary file. -/
def essentialFiles (primaryFiles allFiles : List String) : List String :=
  keepEssential primaryFiles (allFiles.find? isAppFile)
    ++ keepEssential primaryFiles (allFiles.find? isTailwindConfig)
    ++ keepEssential primaryFiles (allFiles.find? isGlobalCss)

/-- Step 1 of the per-primary-file loop: add resolved local imports that are
not primary files. -/
def addLocalImports (primaryFiles allFiles : List String) (primaryFile : String)
    (imports : List ImportInfo) (acc : List String) : List String :=
  imports.foldl
    (fun acc imp =>
      if imp.isLocal && imp.source != "" then
        match resolveImportPath primaryFile imp.source allFiles with
        | some resolvedPath =>
          if resolvedPath ∈ primaryFiles then acc else setAdd acc resolvedPath
        | none => acc
      else acc)
    acc

/-- Step 2 of the per-primary-file loop: add the backing files of the named
component-tree neighbours that are not primary files. -/
def addTreeNeighbors (primaryFiles : List String)
    (tree : List (String × ComponentTreeNode)) (names : List String)
    (acc : List String) : List String :=
  names.foldl
    (fun acc n =>
      match tree.lookup n with
      | some node => if node.file ∈ primaryFiles then acc else setAdd acc node.file
      | none => acc)
    acc

/-- Body of the `for (const primaryFile of primaryFiles)` loop of
`buildLocalContext`: a primary file with no record contributes nothing. -/
def processPrimaryFile (primaryFiles allFiles : List String) (manifest : FileManifest)
    (acc : List String) (primaryFile : String) : List String :=
  match manifest.files.lookup primaryFile with
  | none => acc
  | some fileInfo =>
    let acc := addLocalImports primaryFiles allFiles primaryFile fileInfo.imports acc
    match fileInfo.componentInfo with
    | some ci =>
      match manifest.componentTree.lookup ci.name with
      | some treeNode =>
        let acc := addTreeNeighbors primaryFiles manifest.componentTree
          treeNode.importedBy acc
        addTreeNeighbors primaryFiles manifest.componentTree treeNode.imports acc
      | none => acc
    | none => acc

/-- `buildLocalContext(primaryFiles, manifest, allFiles)`: essential files
first, then the single-hop closure, deduplicated via the set. -/
def buildLocalContext (primaryFiles : List String) (manifest : FileManifest)
    (allFiles : List String) : List String :=
  let essential := essentialFiles primaryFiles allFiles
  let contextFiles := essential.foldl setAdd []
  let contextFiles := primaryFiles.foldl
    (processPrimaryFile primaryFiles allFiles manifest) contextFiles
  essential ++ contextFiles.filter (fun f => decide (f ∉ essential))

/-- `getFileContents(files, manifest)`: collect the contents of the requested
paths that have a manifest record, silently skipping absent ones. -/
def getFileContents (files : List String) (manifest : FileManifest) :
    List (String × String) :=
  files.foldl
    (fun contents file =>
      match manifest.files.lookup file with
      | some fileInfo => jsObjInsert contents file fileInfo.content
      | none => contents)
    []

/-! ### The `buildLocalContext` invariant -/
/-- Invariant threaded through the context set: insertion-ordered,
duplicate-free, and disjoint from the primary files. -/
def CtxInv (primaryFiles l : List String) : Prop :=
  l.Nodup ∧ ∀ x ∈ l, x ∉ primaryFiles

/-- Demonstration manifest for the C8 witness: one real file. -/
def demoManifest : FileManifest :=
  { files := [("/a/App.jsx", { content := "appcontent", imports := [], componentInfo := none })],
    componentTree := [] }

/-! ### Conversation data model (types/conversation.ts, fields used here) -/
/-- Message provenance. -/
inductive Role
  | user
  | assistant
deriving DecidableEq, Repr

/-- Action recorded for an applied file. -/
inductive FileAction
  | created
  | modified
  | deleted
deriving DecidableEq, Repr

/-- A file the AI actually applied to the sandbox. -/
structure AppliedFile where
  path : String
  action : FileAction
  size : Nat
  componentName : Option String
deriving DecidableEq, Repr

/-- Metadata attached to a conversation message. -/
structure MessageMetadata where
  generatedCode : Option String
  appliedFiles : Option (List AppliedFile)
  actionSummary : Option String
  fileCount : Option Nat
  componentCount : Option Nat
  addedPackages : Option (List String)
deriving DecidableEq, Repr

/-- One user or assistant turn. -/
structure ConversationMessage where
  id : String
  role : Role
  content : String
  timestamp : Nat
  metadata : Option MessageMetadata
deriving DecidableEq, Repr

/-- Cumulative non-evicting roll-up of the session. -/
structure SessionSummary where
  totalInteractions : Nat
  filesCreated : List String
  filesModified : List String
  packagesAdded : List String
  componentsCreated : List String
  lastActionSummary : Option String
deriving DecidableEq, Repr

/-- One major-change record of the project-evolution log. -/
structure MajorChange where
  description : String
  timestamp : Nat
deriving DecidableEq, Repr

/-- The project-evolution log. -/
structure ProjectEvolution where
  majorChanges : List MajorChange
deriving DecidableEq, Repr

/-- The mutable conversation context. -/
structure ConversationContext where
  messages : List ConversationMessage
  sessionSummary : Option SessionSummary
  currentTopic : Option String
  projectEvolution : ProjectEvolution
deriving DecidableEq, Repr

/-- The per-session conversation state. -/
structure ConversationState where
  conversationId : String
  startedAt : Nat
  lastUpdated : Nat
  context : ConversationContext
deriving DecidableEq, Repr

/-- The optional AI-result argument of `updateConversationMemory`. -/
structure AiResponse where
  generatedCode : Option String
  appliedFiles : Option (List AppliedFile)
  actionSummary : Option String
  fileCount : Option Nat
  componentCount : Option Nat
  packagesToInstall : Option (List String)
deriving DecidableEq, Repr

/-! ### Session-summary update (`updateSessionSummary`, conversation-memory.ts) -/
/-- The freshly-initialised summary. -/
def emptySessionSummary : SessionSummary :=
  { totalInteractions := 0, filesCreated := [], filesModified := [],
    packagesAdded := [], componentsCreated := [], lastActionSummary := none }

/-- Body of the `appliedFiles.forEach` loop: created/modified paths and
component names are appended under an existence-check dedup rule. -/
def applyFileToSummary (summary : SessionSummary) (file : AppliedFile) : SessionSummary :=
  match file.action with
  | .created =>
    if file.path ∈ summary.filesCreated then summary
    else
      let summary1 := { summary with filesCreated := summary.filesCreated ++ [file.path] }
      match file.componentName with
      | some cn =>
        if cn ≠ "" ∧ cn ∉ summary1.componentsCreated then
          { summary1 with componentsCreated := summary1.componentsCreated ++ [cn] }
        else summary1
      | none => summary1
  | .modified =>
    if file.path ∈ summary.filesModified then summary
    else { summary with filesModified := summary.filesModified ++ [file.path] }
  | .deleted => summary

/-- Body of the `packagesToInstall.forEach` loop. -/
def addPackageToSummary (summary : SessionSummary) (pkg : String) : SessionSummary :=
  if pkg ∈ summary.packagesAdded then summary
  else { summary with packagesAdded := summary.packagesAdded ++ [pkg] }

/-- The summary produced by `updateSessionSummary`: initialise when absent,
bump the interaction counter, then fold the applied files and packages
through the dedup appends. -/
def computeNewSummary (old : Option SessionSummary) (aiResponse : AiResponse) :
    SessionSummary :=
  let summary := old.getD emptySessionSummary
  let summary := { summary with
    totalInteractions := summary.totalInteractions + 1,
    lastActionSummary := aiResponse.actionSummary }
  let summary :=
    match aiResponse.appliedFiles with
    | some files => files.foldl applyFileToSummary summary
    | none => summary
  match aiResponse.packagesToInstall with
  | some pkgs => pkgs.foldl addPackageToSummary summary
  | none => summary

/-- `updateSessionSummary(conversationState, aiResponse)`. -/
def updateSessionSummary (state : ConversationState) (aiResponse : AiResponse) :
    ConversationState :=
  { state with context := { state.context with
      sessionSummary := some (computeNewSummary state.context.sessionSummary aiResponse) } }

/-! ### Memory append and eviction (`updateConversationMemory`) -/
/-- The synthesized assistant message for an AI result (`Date.now()` is the
`now` parameter). -/
def aiMessageOf (aiResponse : AiResponse) (now : Nat) : ConversationMessage :=
  { id := "ai-" ++ toString now, role := .assistant,
    content := jsOrDefault aiResponse.actionSummary "Generated code response",
    timestamp := now,
    metadata := some
      { generatedCode := aiResponse.generatedCode,
        appliedFiles := aiResponse.appliedFiles,
        actionSummary := aiResponse.actionSummary,
        fileCount := aiResponse.fileCount,
        componentCount := aiResponse.componentCount,
        addedPackages := aiResponse.packagesToInstall } }

/-- The message log right after the pushes, before the eviction check. -/
def pushedMessages (state : ConversationState) (userMessage : ConversationMessage)
    (aiResponse : Option AiResponse) (now : Nat) : List ConversationMessage :=
  match aiResponse with
  | some r => state.context.messages ++ [userMessage, aiMessageOf r now]
  | none => state.context.messages ++ [userMessage]

/-- The eviction check of `updateConversationMemory`: truncate the log to the
15 most recent messages whenever it exceeds 20 entries. -/
def applyEviction (s : ConversationState) : ConversationState :=
  if s.context.messages.length > 20 then
    { s with context := { s.context with messages := lastN 15 s.context.messages } }
  else s

/-- `updateConversationMemory(conversationState, userMessage, aiResponse)`:
push the user message, optionally synthesize and push the assistant message
and update the summary, then apply the eviction check and stamp
`lastUpdated`. -/
def updateConversationMemory (state : ConversationState)
    (userMessage : ConversationMessage) (aiResponse : Option AiResponse)
    (now : Nat) : ConversationState :=
  let state1 := { state with context :=
    { state.context with messages := state.context.messages ++ [userMessage] } }
  let state2 :=
    match aiResponse with
    | some r =>
      let state' := { state1 with context :=
        { state1.context with messages := state1.context.messages ++ [aiMessageOf r now] } }
      updateSessionSummary state' r
    | none => state1
  { applyEviction state2 with lastUpdated := now }

/-- The request-start eviction in the generation route: same threshold and
truncation applied to the global state's log before handling a request. -/
def trimMessagesAtRequestStart (messages : List ConversationMessage) :
    List ConversationMessage :=
  if messages.length > 20 then lastN 15 messages else messages

/-! ### Recent-interaction pairing (`getRecentInteractions`) -/
/-- One user/assistant interaction pair (the assistant side may be absent). -/
structure Interaction where
  userMessage : ConversationMessage
  aiMessage : Option ConversationMessage
deriving DecidableEq, Repr

/-- The reverse-iteration loop of `getRecentInteractions`, processing the
reversed message log; `pending` is the `userMessage` local variable and
`acc` the `interactions` array (built with `unshift`). -/
def recentLoop (maxCount : Nat) :
    List ConversationMessage → Option ConversationMessage → List Interaction →
      Option ConversationMessage × List Interaction
  | [], pending, acc => (pending, acc)
  | m :: rest, pending, acc =>
    if acc.length ≥ maxCount then (pending, acc)
    else
      match m.role with
      | .user =>
        let acc : List Interaction :=
          match pending with
          | some u => { userMessage := u, aiMessage := none } :: acc
          | none => acc
        recentLoop maxCount rest (some m) acc
      | .assistant =>
        match pending with
        | some u => recentLoop maxCount rest none
            ({ userMessage := u, aiMessage := some m } :: acc)
        | none => recentLoop maxCount rest none acc

/-- `getRecentInteractions(messages, maxCount)`. -/
def getRecentInteractions (messages : List ConversationMessage) (maxCount : Nat) :
    List Interaction :=
  let pa := recentLoop maxCount messages.reverse none []
  let acc : List Interaction :=
    match pa.1 with
    | some u =>
      if pa.2.length < maxCount then { userMessage := u, aiMessage := none } :: pa.2
      else pa.2
    | none => pa.2
  acc.take maxCount

/-! ### Digest rendering (`buildConversationHistoryPrompt`) -/
/-- Abstract JavaScript runtime facilities: the clock, the locale time
formatter, and the two regular-expression tests of `analyzeUserPreferences`
(targeted-verb and comprehensive-verb families). All theorems below hold
for every instantiation. -/
structure JsEnv where
  now : Nat
  fmtTime : Nat → String
  matchTargeted : String → Bool
  matchComprehensive : String → Bool

/-- `getTimeAgo(timestamp)`: relative-time label against the current clock. -/
def getTimeAgo (now timestamp : Nat) : String :=
  let diff := now - timestamp
  let minutes := diff / 60000
  if minutes < 1 then "just now"
  else if minutes < 60 then toString minutes ++ "m ago"
  else
    let hours := minutes / 60
    if hours < 24 then toString hours ++ "h ago"
    else toString (hours / 24) ++ "d ago"

/-- `truncateText(text, maxLength)`. -/
def truncateText (text : String) (maxLength : Nat) : String :=
  if text.length ≤ maxLength then text
  else jsSubstring text (maxLength - 3) ++ "..."

/-- `generateActionSummary(aiMessage)`: synthesize a summary from the
file/component/package counts (zero counts are falsy and skipped). -/
def generateActionSummary (aiMessage : ConversationMessage) : String :=
  match aiMessage.metadata with
  | none => "Generated response"
  | some metadata =>
    let parts : List String := []
    let parts := match metadata.fileCount with
      | some n =>
        if n = 0 then parts
        else if n = 1 then parts ++ ["Modified 1 file"]
        else parts ++ ["Modified " ++ toString n ++ " files"]
      | none => parts
    let parts := match metadata.componentCount with
      | some n =>
        if n = 0 then parts
        else if n = 1 then parts ++ ["created 1 component"]
        else parts ++ ["created " ++ toString n ++ " components"]
      | none => parts
    let parts := match metadata.addedPackages with
      | some pkgs =>
        if pkgs.length = 0 then parts
        else parts ++ ["added " ++ toString pkgs.length ++ " package" ++
          (if pkgs.length > 1 then "s" else "")]
      | none => parts
    if parts.length > 0 then joinSep ", " parts else "Generated code"

/-- `file.path.split('/').pop() || file.path`. -/
def fileNameOf (path : String) : String :=
  let last := (splitChar '/' path).getLastD ""
  if last = "" then path else last

/-- `summarizeFileActions(appliedFiles)`: group by action in encounter order
and render the created/modified/deleted groups. -/
def summarizeFileActions (appliedFiles : List AppliedFile) : String :=
  let created := (appliedFiles.filter (fun f => decide (f.action = FileAction.created))).map
    (fun f => fileNameOf f.path)
  let modified := (appliedFiles.filter (fun f => decide (f.action = FileAction.modified))).map
    (fun f => fileNameOf f.path)
  let deleted := (appliedFiles.filter (fun f => decide (f.action = FileAction.deleted))).map
    (fun f => fileNameOf f.path)
  let summaries : List String := []
  let summaries := if created.length > 0 then
      summaries ++ ["created " ++ joinSep ", " (created.take 3) ++
        (if created.length > 3 then " (+" ++ toString (created.length - 3) ++ ")" else "")]
    else summaries
  let summaries := if modified.length > 0 then
      summaries ++ ["modified " ++ joinSep ", " (modified.take 3) ++
        (if modified.length > 3 then " (+" ++ toString (modified.length - 3) ++ ")" else "")]
    else summaries
  let summaries := if deleted.length > 0 then
      summaries ++ ["deleted " ++ joinSep ", " deleted]
    else summaries
  joinSep ", " summaries

/-- First-occurrence deduplication, as `[...new Set(xs)]` iterates. -/
def dedupFirstAux (seen : List String) : List String → List String
  | [] => []
  | x :: rest =>
    if x ∈ seen then dedupFirstAux seen rest
    else x :: dedupFirstAux (seen ++ [x]) rest

/-- `[...new Set(xs)]`. -/
def dedupFirst (l : List String) : List String := dedupFirstAux [] l

/-- `analyzeUserPreferences(messages)`: keyword counts over lower-cased user
messages; returns the top-3 first-occurrence patterns and the edit-style
label. -/
def analyzeUserPreferences (env : JsEnv) (messages : List ConversationMessage) :
    List String × String :=
  let userMessages := messages.filter (fun m => decide (m.role = Role.user))
  let step := fun (st : Nat × Nat × List String) (msg : ConversationMessage) =>
    let content := strToLower msg.content
    let t := if env.matchTargeted content then st.1 + 1 else st.1
    let c := if env.matchComprehensive content then st.2.1 + 1 else st.2.1
    let patterns := st.2.2
    let patterns := if strContains content "hero" then patterns ++ ["hero section edits"]
      else patterns
    let patterns := if strContains content "header" then patterns ++ ["header modifications"]
      else patterns
    let patterns := if strContains content "color" || strContains content "style" then
        patterns ++ ["styling changes"]
      else patterns
    let patterns := if strContains content "button" then patterns ++ ["button updates"]
      else patterns
    let patterns := if strContains content "animation" then patterns ++ ["animation requests"]
      else patterns
    (t, c, patterns)
  let tcp := userMessages.foldl step (0, 0, [])
  ((dedupFirst tcp.2.2).take 3, if tcp.1 > tcp.2.1 then "targeted" else "comprehensive")

/-- The `Total interactions:` figure: `sessionSummary?.totalInteractions ||
messages.length` (a zero counter is falsy and falls back). -/
def totalInteractionsDisplay (context : ConversationContext) : Nat :=
  match context.sessionSummary with
  | some s => if s.totalInteractions = 0 then context.messages.length else s.totalInteractions
  | none => context.messages.length

/-- The sections pushed for one rendered recent interaction. -/
def interactionSections (env : JsEnv) (total idx : Nat) (interaction : Interaction) :
    List String :=
  let timeAgo := getTimeAgo env.now interaction.userMessage.timestamp
  let first := "\n**" ++ toString (total - idx) ++ ". User (" ++ timeAgo ++ "):** \"" ++
    truncateText interaction.userMessage.content 80 ++ "\""
  match interaction.aiMessage with
  | none => [first]
  | some aiMsg =>
    let aiSummary := jsOrDefault (aiMsg.metadata.bind (fun m => m.actionSummary))
      (generateActionSummary aiMsg)
    let second := "**AI Response:** " ++ aiSummary
    let fileSections : List String :=
      match aiMsg.metadata.bind (fun m => m.appliedFiles) with
      | some files =>
        if files.length > 0 then ["**Files:** " ++ summarizeFileActions files] else []
      | none => []
    first :: second :: fileSections

/-- A capped roll-up line of the session-summary block. -/
def rollupLine (label : String) (items : List String) : String :=
  "**" ++ label ++ ":** " ++ joinSep ", " (lastN 5 items) ++
    (if items.length > 5 then " (+" ++ toString (items.length - 5) ++ " more)" else "")

/-- The session-summary sections. -/
def sessionSummarySections (summary : SessionSummary) : List String :=
  ["\n### Session Summary:"]
    ++ (if summary.filesCreated.length > 0 then
        [rollupLine "Created files" summary.filesCreated] else [])
    ++ (if summary.filesModified.length > 0 then
        [rollupLine "Modified files" summary.filesModified] else [])
    ++ (if summary.componentsCreated.length > 0 then
        [rollupLine "Components created" summary.componentsCreated] else [])
    ++ (if summary.packagesAdded.length > 0 then
        ["**Packages added:** " ++ joinSep ", " summary.packagesAdded] else [])

/-- All sections of the digest, in push order. -/
def conversationSections (env : JsEnv) (state : ConversationState) : List String :=
  let context := state.context
  let base := ["## 🧠 CONVERSATION MEMORY",
    "Session started: " ++ env.fmtTime state.startedAt,
    "Total interactions: " ++ toString (totalInteractionsDisplay context)]
  let recent := getRecentInteractions context.messages 5
  let base := base ++
    (if recent.length > 0 then
      "\n### Recent Conversation:" ::
        (recent.enum.foldl
          (fun acc p => acc ++ interactionSections env recent.length p.1 p.2) [])
    else [])
  let base := base ++
    (match context.sessionSummary with
     | some summary => sessionSummarySections summary
     | none => [])
  let prefs := analyzeUserPreferences env context.messages
  let base := base ++
    (if prefs.1.length > 0 then
      ["\n### User Patterns:", "**Edit style:** " ++ prefs.2,
        "**Common requests:** " ++ joinSep ", " (prefs.1.take 3)]
    else [])
  let base := base ++
    (match context.currentTopic with
     | some topic => if topic ≠ "" then ["\n### Current Focus: " ++ topic] else []
     | none => [])
  let recentChanges := lastN 2 context.projectEvolution.majorChanges
  base ++
    (if recentChanges.length > 0 then
      "\n### Recent Major Changes:" ::
        recentChanges.map (fun change =>
          "- " ++ change.description ++ " (" ++ getTimeAgo env.now change.timestamp ++ ")")
    else [])

/-- The digest before the final length clamp (empty under the early return). -/
def rawDigest (env : JsEnv) (state : Option ConversationState) : String :=
  match state with
  | none => ""
  | some s =>
    if s.context.messages.length ≤ 1 then ""
    else joinNL (conversationSections env s)

/-- The fixed truncation notice of the digest clamp. -/
def truncationNotice : String := "\n[Memory truncated to prevent context overflow]"

/-- `buildConversationHistoryPrompt(conversationState)`: early-return empty
for null state or a log of at most one message; otherwise join the sections
and clamp at 2000 characters, suffixing the truncation notice. -/
def buildConversationHistoryPrompt (env : JsEnv) (state : Option ConversationState) :
    String :=
  let result := rawDigest env state
  if result.length > 2000 then jsSubstring result 2000 ++ truncationNotice
  else result

/-! ### Prompt file embedding (`formatFilesForAI`, context-selector.ts) -/
/-- `getFileExtension(path)`: syntax-highlighting language for the fence. -/
def getFileExtension (path : String) : String :=
  let ext := (splitChar '.' path).getLastD ""
  match ext with
  | "js" => "javascript"
  | "jsx" => "javascript"
  | "ts" => "typescript"
  | "tsx" => "typescript"
  | "css" => "css"
  | "json" => "json"
  | other => other

/-- The code-fence delimiter. -/
def fence : String := "```"

/-- The per-file section for a primary file: the body is embedded whole. -/
def primarySection (path content : String) : String :=
  "### " ++ path ++
    "\n**IMPORTANT: This is the COMPLETE file. Your output must include EVERY line shown below, modified only where necessary.**\n"
    ++ fence ++ getFileExtension path ++ "\n" ++ content ++ "\n" ++ fence ++ "\n"

/-- The truncation marker appended to clipped context files. -/
def contextTruncMarker : String := "\n// ... [truncated for context length]"

/-- The per-file section for a context file: bodies longer than 2000
characters are clipped and marked. -/
def contextSection (path content : String) : String :=
  let truncatedContent :=
    if content.length > 2000 then jsSubstring content 2000 ++ contextTruncMarker
    else content
  "### " ++ path ++ " (Reference Only)\n" ++ fence ++ getFileExtension path ++ "\n" ++
    truncatedContent ++ "\n" ++ fence ++ "\n"

/-- The section array built by `formatFilesForAI`, in push order. -/
def formatSections (primaryFiles contextFiles : List (String × String)) : List String :=
  let sections : List String := [
    "# File Organization for Edit Request\n",
    "The files below are organized into two categories to help you understand what to modify vs what to reference:\n",
    "## 📝 Files to Edit\n",
    "**THESE are the files you should modify to fulfill the user\x27s request.**\n",
    "🚨 You MUST ONLY generate the files listed in this section. Do NOT generate any other files! 🚨\n",
    "⚠️ CRITICAL: Return the COMPLETE file - NEVER truncate with \"...\" or skip any lines! ⚠️\n",
    "The file MUST include ALL imports, ALL functions, ALL JSX, and ALL closing tags.\n\n"]
  let sections := sections ++
    (if primaryFiles.length = 0 then
      ["*No primary files identified for editing. Please analyze the request and determine which files need modification.*\n\n"]
    else primaryFiles.map (fun pc => primarySection pc.1 pc.2))
  let sections := sections ++
    (if contextFiles.length > 0 then
      ["\n## 📚 Context Files for Reference\n",
       "**THESE files are provided for context and understanding relationships.**\n",
       "- Use these to understand component APIs, import paths, and architectural patterns\n",
       "- DO NOT modify these files unless they are explicitly mentioned in the user\x27s request\n",
       "- These files show you how components are connected and what dependencies exist\n\n"]
      ++ contextFiles.map (fun pc => contextSection pc.1 pc.2)
    else [])
  sections ++ [
    "\n## 🎯 Instructions\n",
    "1. **Focus on \"Files to Edit\"** - These are your primary targets\n",
    "2. **Reference \"Context Files\"** - Use these to understand relationships and APIs\n",
    "3. **Maintain consistency** - Follow patterns shown in the context files\n",
    "4. **Preserve existing functionality** - Only change what the user specifically requested\n"]

/-- `formatFilesForAI(primaryFiles, contextFiles)`: the full prompt block,
sections joined with a newline. -/
def formatFilesForAI (primaryFiles contextFiles : List (String × String)) : String :=
  joinNL (formatSections primaryFiles contextFiles)

/-! ### Search-target selection (claim C9)

Modelled from the spec: `selectTargetFile` lives in `lib/file-search-executor`,
which is not among the provided sources (only its caller in the generation
route is). Spec §4.5: group results by file; for single-point edit
categories (update-style, fix-issue, update-component, remove-element) pick
the single highest-scoring result overall, tie-broken by earliest line
number and then by file-path lexical order; for broader categories a single
point is not selected. -/
/-- The edit-intent category enumeration. -/
inductive EditType
  | updateComponent
  | addFeature
  | fixIssue
  | updateStyle
  | refactor
  | fullRebuild
  | addDependency
  | removeElement
deriving DecidableEq, Repr

/-- One search match. Modelled from the spec: file path, matched line number,
matched text, producing term, and match-quality score. -/
structure SearchResult where
  filePath : String
  lineNumber : Nat
  lineContent : String
  matchedTerm : String
  score : Nat
deriving DecidableEq, Repr

/-- The single-point edit categories of spec §4.5. -/
def isSinglePointEdit (t : EditType) : Bool :=
  match t with
  | .updateStyle => true
  | .fixIssue => true
  | .updateComponent => true
  | .removeElement => true
  | _ => false

/-- Lexicographic strict order on character lists (code-point order), the
"file path lexical order" of spec §4.5. -/
def charListLt : List Char → List Char → Bool
  | _, [] => false
  | [], _ :: _ => true
  | a :: as, b :: bs =>
    if a.toNat < b.toNat then true
    else if b.toNat < a.toNat then false
    else charListLt as bs

/-- Lexical order on file paths. -/
def pathLt (a b : String) : Bool := charListLt a.data b.data

/-- Modelled from the spec: the strict preference order on results — higher
score first, then earlier line, then lexically smaller file path. -/
def betterResult (a b : SearchResult) : Bool :=
  if a.score ≠ b.score then decide (b.score < a.score)
  else if a.lineNumber ≠ b.lineNumber then decide (a.lineNumber < b.lineNumber)
  else pathLt a.filePath b.filePath

/-- Modelled from the spec: `selectTargetFile(results, editType)` returns the
most-preferred result for single-point edit categories and nothing for the
broader categories or an empty result list. -/
def selectTargetFile (results : List SearchResult) (editType : EditType) :
    Option SearchResult :=
  if isSinglePointEdit editType then
    match results with
    | [] => none
    | r :: rest => some (rest.foldl (fun best x => if betterResult x best then x else best) r)
  else none

/-- The non-strict preference relation: `a` is at least as preferred as `b`
(the path clause says `b`'s path is not lexically smaller than `a`'s). -/
def resultBeats (a b : SearchResult) : Prop :=
  b.score < a.score ∨
    (b.score = a.score ∧
      (a.lineNumber < b.lineNumber ∨
        (a.lineNumber = b.lineNumber ∧ pathLt b.filePath a.filePath = false)))

/-- The conversation state created at the start of the generation route. -/
def initialConversationState : ConversationState :=
  { conversationId := "conv-0", startedAt := 0, lastUpdated := 0,
    context := { messages := [],
                 sessionSummary := some emptySessionSummary,
                 currentTopic := none,
                 projectEvolution := { majorChanges := [] } } }

/-- A demonstration user message. -/
def demoUserMessage (k : Nat) : ConversationMessage :=
  { id := "msg-" ++ toString k, role := .user, content := "add a feature",
    timestamp := k, metadata := none }

/-- `k` sequential user-message appends starting from the fresh state. -/
def iterateAppends : Nat → ConversationState
  | 0 => initialConversationState
  | n + 1 => updateConversationMemory (iterateAppends n) (demoUserMessage n) none n

/-! ### Session-summary monotonicity (claim C3) -/
/-- `b` extends `a`: the counter has not decreased and every cumulative list
of `a` is an initial segment of the corresponding list of `b`. -/
def SummaryExt (a b : SessionSummary) : Prop :=
  a.totalInteractions ≤ b.totalInteractions ∧
  a.filesCreated <+: b.filesCreated ∧
  a.filesModified <+: b.filesModified ∧
  a.packagesAdded <+: b.packagesAdded ∧
  a.componentsCreated <+: b.componentsCreated

/-- A step list applied in sequence to a conversation state. -/
def runMemoryUpdates (state : ConversationState)
    (steps : List (ConversationMessage × Option AiResponse × Nat)) : ConversationState :=
  steps.foldl (fun s step => updateConversationMemory s step.1 step.2.1 step.2.2) state

/-- The summary field of a state, with the absent case read as the fresh
summary (exactly how `updateSessionSummary` initialises it). -/
def summaryOf (state : ConversationState) : SessionSummary :=
  state.context.sessionSummary.getD emptySessionSummary

/-! ### Interaction pairing (claim C4) -/
/-- A demonstration user turn. -/
def demoUser (k : Nat) : ConversationMessage :=
  { id := "u" ++ toString k, role := .user, content := "request " ++ toString k,
    timestamp := k, metadata := none }

/-- A demonstration assistant turn. -/
def demoAssistant (k : Nat) : ConversationMessage :=
  { id := "a" ++ toString k, role := .assistant, content := "answer " ++ toString k,
    timestamp := k, metadata := none }

/-- A fixed environment for the digest witnesses. -/
def demoEnv : JsEnv :=
  { now := 120000, fmtTime := fun _ => "10:00:00 AM",
    matchTargeted := fun _ => false, matchComprehensive := fun _ => false }

/-- A two-message state with a topic long enough to overflow the cap. -/
def demoBigState : ConversationState :=
  { conversationId := "c", startedAt := 0, lastUpdated := 0,
    context := { messages := [demoUser 1, demoAssistant 1],
                 sessionSummary := none,
                 currentTopic := some (String.mk (List.replicate 2100 'x')),
                 projectEvolution := { majorChanges := [] } } }

/-- A two-message state whose digest stays under the cap. -/
def demoSmallState : ConversationState :=
  { conversationId := "c", startedAt := 0, lastUpdated := 0,
    context := { messages := [demoUser 1, demoAssistant 1],
                 sessionSummary := none,
                 currentTopic := none,
                 projectEvolution := { majorChanges := [] } } }

/-- The sections of the big demonstration state before its long topic line. -/
def demoBigPrefixSections : List String :=
  ["## 🧠 CONVERSATION MEMORY", "Session started: 10:00:00 AM",
   "Total interactions: 2", "\n### Recent Conversation:",
   "\n**1. User (1m ago):** \"request 1\""]

/-- A long context body for the C7 witness. -/
def demoLongContent : String := String.mk (List.replicate 2500 'a')

/-- Two equal-score, equal-line results in different files. -/
def demoResA : SearchResult :=
  { filePath := "/app/Footer.jsx", lineNumber := 10, lineContent := "x",
    matchedTerm := "t", score := 7 }

/-- The lexically larger twin of `demoResA`. -/
def demoResB : SearchResult :=
  { filePath := "/app/Header.jsx", lineNumber := 10, lineContent := "x",
    matchedTerm := "t", score := 7 }

/-- An equal-score result on a later line. -/
def demoResC : SearchResult :=
  { filePath := "/app/A.jsx", lineNumber := 30, lineContent := "x",
    matchedTerm := "t", score := 7 }

/-- An equal-score result on an earlier line. -/
def demoResD : SearchResult :=
  { filePath := "/app/Z.jsx", lineNumber := 12, lineContent := "x",
    matchedTerm := "t", score := 7 }

/-! ### Generic fold helpers -/
/-- A property preserved by every step of a fold is preserved by the fold. -/
theorem foldl_preserve {α β : Type} {P : β → Prop} {f : β → α → β} :
    ∀ (l : List α), (∀ acc a, a ∈ l → P acc → P (f acc a)) →
      ∀ acc, P acc → P (l.foldl f acc)
  | [], _, _, hacc => hacc
  | a :: l, hf, acc, hacc =>
    foldl_preserve l (fun acc b hb h => hf acc b (List.mem_cons_of_mem a hb) h)
      (f acc a) (hf acc a (List.mem_cons_self a l) hacc)

/-- Folding `setAdd` over fresh, duplicate-free elements just appends them. -/
theorem foldl_setAdd_of_nodup :
    ∀ (l acc : List String), (acc ++ l).Nodup → l.foldl setAdd acc = acc ++ l
  | [], acc, _ => by simp
  | a :: l, acc, h => by
    have hmem : a ∉ acc := by
      rcases List.nodup_append.mp h with ⟨_, _, hdisj⟩
      intro ha
      exact hdisj ha (List.mem_cons_self a l)
    have hstep : setAdd acc a = acc ++ [a] := by
      unfold setAdd
      rw [if_neg hmem]
    have hrec := foldl_setAdd_of_nodup l (acc ++ [a]) (by simpa using h)
    simp only [List.foldl_cons, hstep, hrec, List.append_assoc, List.singleton_append]

/-! ### Pairwise distinctness of the essential files -/
/-- Two suffixes of the same string are comparable as suffixes. -/
theorem strEndsWith_comparable {f a b : String}
    (ha : strEndsWith f a = true) (hb : strEndsWith f b = true) :
    a.data <:+ b.data ∨ b.data <:+ a.data := by
  unfold strEndsWith at ha hb
  rw [List.isSuffixOf_iff_suffix] at ha hb
  exact List.suffix_or_suffix_of_suffix ha hb

/-- Strings ending in incomparable suffixes are distinct. -/
theorem endsWith_distinct {f g a b : String}
    (ha : strEndsWith f a = true) (hb : strEndsWith g b = true)
    (hab : ¬(a.data <:+ b.data) ∧ ¬(b.data <:+ a.data)) : f ≠ g := by
  intro h
  subst h
  rcases strEndsWith_comparable ha hb with h1 | h1
  · exact hab.1 h1
  · exact hab.2 h1

/-- The entry-component file is never the tailwind configuration file. -/
theorem appFile_ne_tailwind {f g : String}
    (hf : isAppFile f = true) (hg : isTailwindConfig g = true) : f ≠ g := by
  simp only [isAppFile, Bool.or_eq_true] at hf
  simp only [isTailwindConfig, Bool.or_eq_true] at hg
  rcases hf with h1 | h1 <;> rcases hg with h2 | h2 <;>
    exact endsWith_distinct h1 h2 (by decide)

/-- The entry-component file is never the global stylesheet. -/
theorem appFile_ne_globalCss {f g : String}
    (hf : isAppFile f = true) (hg : isGlobalCss g = true) : f ≠ g := by
  simp only [isAppFile, Bool.or_eq_true] at hf
  simp only [isGlobalCss, Bool.or_eq_true] at hg
  rcases hf with h1 | h1 <;> rcases hg with h2 | h2 <;>
    exact endsWith_distinct h1 h2 (by decide)

/-- The tailwind configuration file is never the global stylesheet. -/
theorem tailwind_ne_globalCss {f g : String}
    (hf : isTailwindConfig f = true) (hg : isGlobalCss g = true) : f ≠ g := by
  simp only [isTailwindConfig, Bool.or_eq_true] at hf
  simp only [isGlobalCss, Bool.or_eq_true] at hg
  rcases hf with h1 | h1 <;> rcases hg with h2 | h2 <;>
    exact endsWith_distinct h1 h2 (by decide)

/-- Membership characterisation of `keepEssential`. -/
theorem mem_keepEssential {P : List String} {c : Option String} {x : String}
    (h : x ∈ keepEssential P c) : c = some x ∧ x ∉ P := by
  cases c with
  | none => simp [keepEssential] at h
  | some f =>
    by_cases hf : f ∈ P
    · simp [keepEssential, hf] at h
    · simp only [keepEssential, if_neg hf, List.mem_singleton] at h
      subst h
      exact ⟨rfl, hf⟩

/-- `keepEssential` yields a duplicate-free list. -/
theorem keepEssential_nodup (P : List String) (c : Option String) :
    (keepEssential P c).Nodup := by
  cases c with
  | none => simp [keepEssential]
  | some f =>
    by_cases hf : f ∈ P <;> simp [keepEssential, hf]

/-- The essential-files list contains no duplicates. -/
theorem essentialFiles_nodup (primaryFiles allFiles : List String) :
    (essentialFiles primaryFiles allFiles).Nodup := by
  unfold essentialFiles
  rw [List.nodup_append, List.nodup_append]
  refine ⟨⟨keepEssential_nodup _ _, keepEssential_nodup _ _, ?_⟩,
    keepEssential_nodup _ _, ?_⟩
  · intro x hx hy
    obtain ⟨hfx, _⟩ := mem_keepEssential hx
    obtain ⟨hfy, _⟩ := mem_keepEssential hy
    exact appFile_ne_tailwind (List.find?_some hfx) (List.find?_some hfy) rfl
  · intro x hx hy
    obtain ⟨hfy, _⟩ := mem_keepEssential hy
    rcases List.mem_append.mp hx with hx | hx
    · obtain ⟨hfx, _⟩ := mem_keepEssential hx
      exact appFile_ne_globalCss (List.find?_some hfx) (List.find?_some hfy) rfl
    · obtain ⟨hfx, _⟩ := mem_keepEssential hx
      exact tailwind_ne_globalCss (List.find?_some hfx) (List.find?_some hfy) rfl

/-- No essential file is a primary file. -/
theorem essentialFiles_not_primary (primaryFiles allFiles : List String) :
    ∀ x ∈ essentialFiles primaryFiles allFiles, x ∉ primaryFiles := by
  intro x hx
  unfold essentialFiles at hx
  rcases List.mem_append.mp hx with hx | hx
  · rcases List.mem_append.mp hx with hx | hx
    · exact (mem_keepEssential hx).2
    · exact (mem_keepEssential hx).2
  · exact (mem_keepEssential hx).2

/-- `setAdd` preserves the invariant when the new element is not primary. -/
theorem setAdd_inv {P l : List String} {x : String} (h : CtxInv P l) (hx : x ∉ P) :
    CtxInv P (setAdd l x) := by
  unfold setAdd
  by_cases hmem : x ∈ l
  · rw [if_pos hmem]
    exact h
  · rw [if_neg hmem]
    refine ⟨h.1.append (List.nodup_singleton x) ?_, ?_⟩
    · intro a ha hax
      rw [List.mem_singleton] at hax
      exact hmem (hax ▸ ha)
    · intro y hy
      rcases List.mem_append.mp hy with hy | hy
      · exact h.2 y hy
      · rw [List.mem_singleton] at hy
        exact hy ▸ hx

/-- The import-resolution step preserves the invariant. -/
theorem addLocalImports_inv {P : List String} (allFiles : List String)
    (primaryFile : String) (imports : List ImportInfo) {acc : List String}
    (h : CtxInv P acc) : CtxInv P (addLocalImports P allFiles primaryFile imports acc) := by
  unfold addLocalImports
  refine foldl_preserve imports (fun acc imp _ hacc => ?_) acc h
  by_cases hc : (imp.isLocal && imp.source != "") = true
  · rw [if_pos hc]
    cases hres : resolveImportPath primaryFile imp.source allFiles with
    | none => exact hacc
    | some resolvedPath =>
      show CtxInv P (if resolvedPath ∈ P then acc else setAdd acc resolvedPath)
      by_cases hp : resolvedPath ∈ P
      · rw [if_pos hp]
        exact hacc
      · rw [if_neg hp]
        exact setAdd_inv hacc hp
  · rw [if_neg hc]
    exact hacc

/-- The component-tree step preserves the invariant. -/
theorem addTreeNeighbors_inv {P : List String}
    (tree : List (String × ComponentTreeNode)) (names : List String)
    {acc : List String} (h : CtxInv P acc) :
    CtxInv P (addTreeNeighbors P tree names acc) := by
  unfold addTreeNeighbors
  refine foldl_preserve names (fun acc n _ hacc => ?_) acc h
  cases hres : tree.lookup n with
  | none => exact hacc
  | some node =>
    show CtxInv P (if node.file ∈ P then acc else setAdd acc node.file)
    by_cases hp : node.file ∈ P
    · rw [if_pos hp]
      exact hacc
    · rw [if_neg hp]
      exact setAdd_inv hacc hp

/-- Each iteration of the primary-file loop preserves the invariant. -/
theorem processPrimaryFile_inv {P : List String} (allFiles : List String)
    (manifest : FileManifest) {acc : List String} (primaryFile : String)
    (h : CtxInv P acc) : CtxInv P (processPrimaryFile P allFiles manifest acc primaryFile) := by
  unfold processPrimaryFile
  cases hfi : manifest.files.lookup primaryFile with
  | none => exact h
  | some fileInfo =>
    dsimp only
    have h1 := @addLocalImports_inv P allFiles primaryFile fileInfo.imports _ h
    cases hci : fileInfo.componentInfo with
    | none => exact h1
    | some ci =>
      dsimp only
      cases htn : manifest.componentTree.lookup ci.name with
      | none => exact h1
      | some treeNode =>
        exact addTreeNeighbors_inv _ _ (addTreeNeighbors_inv _ _ h1)

/-- Claim C1: for every list of primary files and every manifest, the ordered
sequence returned by `buildLocalContext` contains no duplicate paths and
contains no path that is an element of `primaryFiles`. -/
theorem buildLocalContext_nodup_and_disjoint (primaryFiles : List String)
    (manifest : FileManifest) (allFiles : List String) :
    (buildLocalContext primaryFiles manifest allFiles).Nodup ∧
      ∀ x ∈ buildLocalContext primaryFiles manifest allFiles, x ∉ primaryFiles := by
  unfold buildLocalContext
  have hEnd := essentialFiles_nodup primaryFiles allFiles
  have hEnp := essentialFiles_not_primary primaryFiles allFiles
  have hInv0 : CtxInv primaryFiles
      ((essentialFiles primaryFiles allFiles).foldl setAdd []) := by
    refine foldl_preserve _ (fun acc a ha hacc => setAdd_inv hacc (hEnp a ha)) []
      ⟨List.nodup_nil, by simp⟩
  have hInv1 : CtxInv primaryFiles
      (primaryFiles.foldl (processPrimaryFile primaryFiles allFiles manifest)
        ((essentialFiles primaryFiles allFiles).foldl setAdd [])) := by
    refine foldl_preserve _ (fun acc a _ hacc => processPrimaryFile_inv allFiles manifest a hacc)
      _ hInv0
  constructor
  · refine hEnd.append (hInv1.1.filter _) ?_
    intro x hx hxf
    have := (List.mem_filter.mp hxf).2
    rw [decide_eq_true_eq] at this
    exact this hx
  · intro x hx
    rcases List.mem_append.mp hx with hx | hx
    · exact hEnp x hx
    · exact hInv1.2 x (List.mem_filter.mp hx).1

/-! ### Import-resolution properties (claim C5) -/
/-- A successful resolution always returns a member of `allPaths`. -/
theorem resolveImportPath_mem {fromFile importSource : String}
    {allFiles : List String} {r : String}
    (h : resolveImportPath fromFile importSource allFiles = some r) : r ∈ allFiles := by
  unfold resolveImportPath at h
  by_cases hs : strStartsWith importSource "." = true
  · rw [hs] at h
    simp only [Bool.not_true, Bool.false_eq_true, if_false] at h
    obtain ⟨p, _, hp⟩ := List.exists_of_findSome?_eq_some h
    by_cases hmem : normalizePath p ∈ allFiles
    · rw [if_pos hmem] at hp
      cases hp
      exact hmem
    · rw [if_neg hmem] at hp
      cases hp
  · rw [Bool.not_eq_true] at hs
    rw [hs] at h
    simp at h

/-- Claim C5: `resolveImportPath` returns `none` for every non-relative
specifier; for relative specifiers it resolves against the importing file's
directory (`..` pops a segment, `.` is a no-op), tries the fixed extension
order `.jsx`, `.tsx`, `.js`, `.ts` (index filenames for specifiers ending in
`/`), returns the first candidate present in `allPaths`, and returns `none`
when no candidate is present. -/
theorem resolveImportPath_spec :
    (∀ fromFile importSource allFiles, strStartsWith importSource "." = false →
        resolveImportPath fromFile importSource allFiles = none) ∧
    (∀ fromFile importSource allFiles r,
        resolveImportPath fromFile importSource allFiles = some r → r ∈ allFiles) ∧
    (∀ fromFile importSource, resolveImportPath fromFile importSource [] = none) ∧
    resolveImportPath "/a/b/C.jsx" "./D" ["/x.js", "/a/b/D.jsx"] = some "/a/b/D.jsx" ∧
    resolveImportPath "/a/b/C.jsx" "./D" ["/a/b/D.tsx", "/a/b/D.jsx"] = some "/a/b/D.jsx" ∧
    resolveImportPath "/a/b/C.jsx" "../E" ["/a/E.ts"] = some "/a/E.ts" ∧
    resolveImportPath "/a/b/C.jsx" "./comps/" ["/a/b/comps/index.tsx"] =
      some "/a/b/comps/index.tsx" := by
  refine ⟨?_, fun _ _ _ _ h => resolveImportPath_mem h, ?_, by decide, by decide, by decide,
    by decide⟩
  · intro fromFile importSource allFiles h
    unfold resolveImportPath
    rw [h]
    simp
  · intro fromFile importSource
    cases h : resolveImportPath fromFile importSource [] with
    | none => rfl
    | some r => exact absurd (resolveImportPath_mem h) (List.not_mem_nil r)

/-- Every hypothesis of `resolveImportPath_spec` discharged at a concrete
input: a bare package specifier resolves to `none`, and a successful
resolution lands in `allPaths`. -/
theorem resolveImportPath_spec_witness :
    resolveImportPath "/a/b/C.jsx" "react" ["/a/b/react.jsx"] = none ∧
      "/a/b/D.jsx" ∈ ["/x.js", "/a/b/D.jsx"] := by
  constructor
  · exact resolveImportPath_spec.1 "/a/b/C.jsx" "react" ["/a/b/react.jsx"] (by decide)
  · exact resolveImportPath_spec.2.1 "/a/b/C.jsx" "./D" ["/x.js", "/a/b/D.jsx"] "/a/b/D.jsx"
      resolveImportPath_spec.2.2.2.1

/-! ### Silent-skip behaviour (claim C8) -/
/-- Keys of `jsObjInsert`: the old keys plus the inserted key. -/
theorem jsObjInsert_keys (obj : List (String × String)) (k v p : String) :
    p ∈ (jsObjInsert obj k v).map Prod.fst ↔ p ∈ obj.map Prod.fst ∨ p = k := by
  unfold jsObjInsert
  by_cases hk : k ∈ obj.map Prod.fst
  · rw [if_pos hk]
    have hmap : (obj.map (fun kv => if kv.1 = k then (kv.1, v) else kv)).map Prod.fst
        = obj.map Prod.fst := by
      rw [List.map_map]
      refine List.map_congr_left (fun kv _ => ?_)
      by_cases hkv : kv.1 = k
      · simp [hkv]
      · simp [hkv]
    rw [hmap]
    constructor
    · exact Or.inl
    · rintro (h | h)
      · exact h
      · exact h ▸ hk
  · rw [if_neg hk]
    simp [List.map_append]

/-- Entries of `jsObjInsert`: old entries or the inserted binding. -/
theorem jsObjInsert_values {obj : List (String × String)} {k v p c : String}
    (h : (p, c) ∈ jsObjInsert obj k v) : (p, c) ∈ obj ∨ (p = k ∧ c = v) := by
  unfold jsObjInsert at h
  by_cases hk : k ∈ obj.map Prod.fst
  · rw [if_pos hk] at h
    obtain ⟨kv, hkv, heq⟩ := List.mem_map.mp h
    by_cases hkvk : kv.1 = k
    · rw [if_pos hkvk] at heq
      right
      injection heq with h1 h2
      exact ⟨h1 ▸ hkvk, h2.symm⟩
    · rw [if_neg hkvk] at heq
      left
      exact heq ▸ hkv
  · rw [if_neg hk] at h
    rcases List.mem_append.mp h with h | h
    · exact Or.inl h
    · right
      rw [List.mem_singleton] at h
      exact ⟨congrArg Prod.fst h, congrArg Prod.snd h⟩

/-- Key characterisation of the `getFileContents` fold, generalised over the
accumulator. -/
theorem getFileContents_fold_keys (manifest : FileManifest) :
    ∀ (files : List String) (acc : List (String × String)) (p : String),
      (p ∈ (files.foldl
          (fun contents file =>
            match manifest.files.lookup file with
            | some fileInfo => jsObjInsert contents file fileInfo.content
            | none => contents) acc).map Prod.fst ↔
        p ∈ acc.map Prod.fst ∨ (p ∈ files ∧ (manifest.files.lookup p).isSome))
  | [], acc, p => by simp
  | f :: files, acc, p => by
    rw [List.foldl_cons]
    cases hf : manifest.files.lookup f with
    | none =>
      rw [getFileContents_fold_keys manifest files acc p]
      constructor
      · rintro (h | ⟨h1, h2⟩)
        · exact Or.inl h
        · exact Or.inr ⟨List.mem_cons_of_mem f h1, h2⟩
      · rintro (h | ⟨h1, h2⟩)
        · exact Or.inl h
        · rcases List.mem_cons.mp h1 with rfl | h1
          · rw [hf] at h2
            simp at h2
          · exact Or.inr ⟨h1, h2⟩
    | some fi =>
      rw [getFileContents_fold_keys manifest files (jsObjInsert acc f fi.content) p,
        jsObjInsert_keys]
      constructor
      · rintro ((h | rfl) | ⟨h1, h2⟩)
        · exact Or.inl h
        · exact Or.inr ⟨List.mem_cons_self _ _, by simp [hf]⟩
        · exact Or.inr ⟨List.mem_cons_of_mem f h1, h2⟩
      · rintro (h | ⟨h1, h2⟩)
        · exact Or.inl (Or.inl h)
        · rcases List.mem_cons.mp h1 with rfl | h1
          · exact Or.inl (Or.inr rfl)
          · exact Or.inr ⟨h1, h2⟩

/-- `addLocalImports` is the identity when no import of the file resolves. -/
theorem addLocalImports_noop {P allFiles : List String} {primaryFile : String} :
    ∀ (imports : List ImportInfo) (acc : List String),
      (∀ imp ∈ imports, imp.isLocal = true → imp.source ≠ "" →
        resolveImportPath primaryFile imp.source allFiles = none) →
      addLocalImports P allFiles primaryFile imports acc = acc
  | [], acc, _ => rfl
  | imp :: imports, acc, h => by
    unfold addLocalImports
    rw [List.foldl_cons]
    have hstep : (if imp.isLocal && imp.source != "" then
        match resolveImportPath primaryFile imp.source allFiles with
        | some resolvedPath =>
          if resolvedPath ∈ P then acc else setAdd acc resolvedPath
        | none => acc
      else acc) = acc := by
      by_cases hc : (imp.isLocal && imp.source != "") = true
      · rw [if_pos hc]
        rw [Bool.and_eq_true] at hc
        rw [h imp (List.mem_cons_self _ _) hc.1 (by simpa using hc.2)]
      · rw [if_neg hc]
    rw [hstep]
    exact addLocalImports_noop imports acc
      (fun i hi => h i (List.mem_cons_of_mem imp hi))

/-- Claim C8: lookups that find nothing are silently skipped —sub-part about
`buildLocalContext`: when every primary file either has no record, or has
only unresolvable imports and no component-tree node, the result is exactly
the essential files. -/
theorem buildLocalContext_skips (primaryFiles : List String) (manifest : FileManifest)
    (allFiles : List String)
    (h : ∀ p ∈ primaryFiles, ∀ fi, manifest.files.lookup p = some fi →
      (∀ imp ∈ fi.imports, imp.isLocal = true → imp.source ≠ "" →
        resolveImportPath p imp.source allFiles = none) ∧
      (∀ ci, fi.componentInfo = some ci →
        manifest.componentTree.lookup ci.name = none)) :
    buildLocalContext primaryFiles manifest allFiles =
      essentialFiles primaryFiles allFiles := by
  unfold buildLocalContext
  have hEnd := essentialFiles_nodup primaryFiles allFiles
  have h0 : (essentialFiles primaryFiles allFiles).foldl setAdd []
      = essentialFiles primaryFiles allFiles := by
    simpa using foldl_setAdd_of_nodup (essentialFiles primaryFiles allFiles) []
      (by simpa using hEnd)
  show essentialFiles primaryFiles allFiles ++
      List.filter (fun f => decide (f ∉ essentialFiles primaryFiles allFiles))
        (List.foldl (processPrimaryFile primaryFiles allFiles manifest)
          (List.foldl setAdd [] (essentialFiles primaryFiles allFiles)) primaryFiles)
    = essentialFiles primaryFiles allFiles
  rw [h0]
  have h1 : primaryFiles.foldl (processPrimaryFile primaryFiles allFiles manifest)
      (essentialFiles primaryFiles allFiles) = essentialFiles primaryFiles allFiles := by
    have : ∀ (l : List String), (∀ p ∈ l, p ∈ primaryFiles) →
        ∀ acc, l.foldl (processPrimaryFile primaryFiles allFiles manifest) acc = acc := by
      intro l
      induction l with
      | nil => intro _ acc; rfl
      | cons p l ih =>
        intro hl acc
        rw [List.foldl_cons]
        have hstep : processPrimaryFile primaryFiles allFiles manifest acc p = acc := by
          unfold processPrimaryFile
          cases hfi : manifest.files.lookup p with
          | none => rfl
          | some fileInfo =>
            dsimp only
            obtain ⟨himp, hci⟩ := h p (hl p (List.mem_cons_self _ _)) fileInfo hfi
            rw [addLocalImports_noop fileInfo.imports acc himp]
            cases hcomp : fileInfo.componentInfo with
            | none => rfl
            | some ci =>
              dsimp only
              rw [hci ci hcomp]
        rw [hstep]
        exact ih (fun q hq => hl q (List.mem_cons_of_mem p hq)) acc
    exact this primaryFiles (fun p hp => hp) _
  rw [h1]
  have h2 : (essentialFiles primaryFiles allFiles).filter
      (fun f => decide (f ∉ essentialFiles primaryFiles allFiles)) = [] := by
    cases hfe : (essentialFiles primaryFiles allFiles).filter
        (fun f => decide (f ∉ essentialFiles primaryFiles allFiles)) with
    | nil => rfl
    | cons a l =>
      have ha := hfe ▸ List.mem_cons_self a l
      have hm := List.mem_filter.mp ha
      rw [decide_eq_true_eq] at hm
      exact absurd hm.1 hm.2
  rw [h2, List.append_nil]

/-- Values of the `getFileContents` fold come from manifest records. -/
theorem getFileContents_fold_values (manifest : FileManifest) (files : List String) :
    ∀ p c, (p, c) ∈ files.foldl
        (fun contents file =>
          match manifest.files.lookup file with
          | some fileInfo => jsObjInsert contents file fileInfo.content
          | none => contents) [] →
      ∃ fi, manifest.files.lookup p = some fi ∧ c = fi.content := by
  refine @foldl_preserve _ _
    (fun acc => ∀ p c, (p, c) ∈ acc →
      ∃ fi, manifest.files.lookup p = some fi ∧ c = fi.content) _
    files (fun acc a _ hacc p c hm => ?_) [] (by simp)
  revert hm
  cases hf : manifest.files.lookup a with
  | none => exact fun hm => hacc p c hm
  | some fi =>
    intro hm
    rcases jsObjInsert_values hm with hm | ⟨rfl, rfl⟩
    · exact hacc p c hm
    · exact ⟨fi, hf, rfl⟩

/-- Claim C8: lookups that find nothing are silently skipped and never raise:
`getFileContents` returns a mapping whose keys are exactly the requested
paths present in the manifest (values taken from the records), and
`buildLocalContext` skips primary files with no record, component names with
no tree node and unresolvable imports, leaving only the essential files. -/
theorem silent_skip_spec :
    (∀ files manifest p,
        p ∈ (getFileContents files manifest).map Prod.fst ↔
          p ∈ files ∧ (manifest.files.lookup p).isSome) ∧
    (∀ files manifest p c, (p, c) ∈ getFileContents files manifest →
        ∃ fi, manifest.files.lookup p = some fi ∧ c = fi.content) ∧
    (∀ primaryFiles manifest allFiles,
        (∀ p ∈ primaryFiles, ∀ fi, manifest.files.lookup p = some fi →
          (∀ imp ∈ fi.imports, imp.isLocal = true → imp.source ≠ "" →
            resolveImportPath p imp.source allFiles = none) ∧
          (∀ ci, fi.componentInfo = some ci →
            manifest.componentTree.lookup ci.name = none)) →
        buildLocalContext primaryFiles manifest allFiles =
          essentialFiles primaryFiles allFiles) := by
  refine ⟨fun files manifest p => ?_, fun files manifest => getFileContents_fold_values manifest files,
    fun primaryFiles manifest allFiles h => buildLocalContext_skips primaryFiles manifest allFiles h⟩
  unfold getFileContents
  rw [getFileContents_fold_keys manifest files [] p]
  simp

/-- The C8 theorem applied at concrete inputs: the present path is returned
with its manifest content, and a missing primary file leaves only the
essential files. -/
theorem silent_skip_spec_witness :
    (∃ fi, demoManifest.files.lookup "/a/App.jsx" = some fi ∧ "appcontent" = fi.content) ∧
      buildLocalContext ["/missing.jsx"] demoManifest ["/a/App.jsx"] = ["/a/App.jsx"] := by
  constructor
  · exact silent_skip_spec.2.1 ["/a/App.jsx", "/nope.jsx"] demoManifest "/a/App.jsx"
      "appcontent" (by decide)
  · have hhyp : ∀ p ∈ ["/missing.jsx"], ∀ fi, demoManifest.files.lookup p = some fi →
        (∀ imp ∈ fi.imports, imp.isLocal = true → imp.source ≠ "" →
          resolveImportPath p imp.source ["/a/App.jsx"] = none) ∧
        (∀ ci, fi.componentInfo = some ci →
          demoManifest.componentTree.lookup ci.name = none) := by
      intro p hp fi hfi
      rw [List.mem_singleton] at hp
      subst hp
      exact Option.noConfusion
        ((by decide : List.lookup "/missing.jsx" demoManifest.files = none) ▸ hfi)
    rw [silent_skip_spec.2.2 ["/missing.jsx"] demoManifest ["/a/App.jsx"] hhyp]
    decide

/-! ### Eviction properties (claim C2) -/
/-- `updateSessionSummary` leaves the message log untouched. -/
theorem updateSessionSummary_messages (state : ConversationState) (r : AiResponse) :
    (updateSessionSummary state r).context.messages = state.context.messages := rfl

/-- Projection of the eviction check onto the message log. -/
theorem applyEviction_messages (s : ConversationState) :
    (applyEviction s).context.messages =
      if s.context.messages.length > 20 then lastN 15 s.context.messages
      else s.context.messages := by
  unfold applyEviction
  by_cases h : s.context.messages.length > 20
  · rw [if_pos h, if_pos h]
  · rw [if_neg h, if_neg h]

/-- The eviction check leaves the session summary untouched. -/
theorem applyEviction_summary (s : ConversationState) :
    (applyEviction s).context.sessionSummary = s.context.sessionSummary := by
  unfold applyEviction
  by_cases h : s.context.messages.length > 20
  · rw [if_pos h]
  · rw [if_neg h]

/-- The log after `updateConversationMemory` is the pushed log, truncated to
the last 15 entries exactly when it exceeds 20. -/
theorem updateConversationMemory_messages (state : ConversationState)
    (userMessage : ConversationMessage) (aiResponse : Option AiResponse) (now : Nat) :
    (updateConversationMemory state userMessage aiResponse now).context.messages =
      if (pushedMessages state userMessage aiResponse now).length > 20 then
        lastN 15 (pushedMessages state userMessage aiResponse now)
      else pushedMessages state userMessage aiResponse now := by
  cases aiResponse with
  | none =>
    show (applyEviction { state with context :=
        { state.context with messages := state.context.messages ++ [userMessage] } }
      ).context.messages = _
    rw [applyEviction_messages]
    rfl
  | some r =>
    show (applyEviction (updateSessionSummary { state with context :=
        { state.context with messages :=
          (state.context.messages ++ [userMessage]) ++ [aiMessageOf r now] } } r)
      ).context.messages = _
    rw [applyEviction_messages, updateSessionSummary_messages]
    show (if ((state.context.messages ++ [userMessage]) ++ [aiMessageOf r now]).length > 20
        then lastN 15 ((state.context.messages ++ [userMessage]) ++ [aiMessageOf r now])
        else (state.context.messages ++ [userMessage]) ++ [aiMessageOf r now]) = _
    rw [List.append_assoc, List.singleton_append]
    rfl

/-- Length of the last-15 truncation. -/
theorem lastN_length {α : Type} (n : Nat) (l : List α) :
    (lastN n l).length = l.length - (l.length - n) := by
  unfold lastN
  exact List.length_drop _ _

/-- Claim C2: after every `updateConversationMemory` call (and after the
request-start trimming), a log that exceeded 20 messages is truncated to
exactly the 15 most recent; the log length never exceeds 20 after any call;
and 25 sequential single-message appends from an empty log leave 15 messages
right after the threshold-crossing append (the 21st) and 19 after the 25th. -/
theorem memory_eviction_spec :
    (∀ state userMessage aiResponse now,
        (updateConversationMemory state userMessage aiResponse now).context.messages.length
          ≤ 20) ∧
    (∀ state userMessage aiResponse now,
        (pushedMessages state userMessage aiResponse now).length > 20 →
        (updateConversationMemory state userMessage aiResponse now).context.messages =
          lastN 15 (pushedMessages state userMessage aiResponse now) ∧
        (updateConversationMemory state userMessage aiResponse now).context.messages.length
          = 15) ∧
    (∀ messages : List ConversationMessage, messages.length > 20 →
        trimMessagesAtRequestStart messages = lastN 15 messages ∧
        (trimMessagesAtRequestStart messages).length = 15) ∧
    (∀ messages : List ConversationMessage, messages.length ≤ 20 →
        trimMessagesAtRequestStart messages = messages) ∧
    (iterateAppends 21).context.messages.length = 15 ∧
    (iterateAppends 25).context.messages.length = 19 := by
  refine ⟨?_, ?_, ?_, ?_,
    by set_option maxRecDepth 8192 in decide, by set_option maxRecDepth 8192 in decide⟩
  · intro state userMessage aiResponse now
    rw [updateConversationMemory_messages]
    by_cases h : (pushedMessages state userMessage aiResponse now).length > 20
    · rw [if_pos h, lastN_length]
      omega
    · rw [if_neg h]
      omega
  · intro state userMessage aiResponse now h
    rw [updateConversationMemory_messages, if_pos h]
    exact ⟨rfl, by rw [lastN_length]; omega⟩
  · intro messages h
    unfold trimMessagesAtRequestStart
    rw [if_pos h]
    exact ⟨rfl, by rw [lastN_length]; omega⟩
  · intro messages h
    unfold trimMessagesAtRequestStart
    rw [if_neg (by omega)]

/-- The C2 theorem applied at concrete inputs: the 21st single-message append
crosses the threshold and truncates the log to 15. -/
theorem memory_eviction_spec_witness :
    (updateConversationMemory (iterateAppends 20) (demoUserMessage 20) none 20).context.messages
        = lastN 15 (pushedMessages (iterateAppends 20) (demoUserMessage 20) none 20) ∧
      trimMessagesAtRequestStart ([] : List ConversationMessage) = [] := by
  exact ⟨(memory_eviction_spec.2.1 (iterateAppends 20) (demoUserMessage 20) none 20
      (by set_option maxRecDepth 8192 in decide)).1,
    memory_eviction_spec.2.2.2.1 [] (by decide)⟩

/-- `SummaryExt` is reflexive. -/
theorem summaryExt_refl (a : SessionSummary) : SummaryExt a a :=
  ⟨Nat.le_refl _, List.prefix_rfl, List.prefix_rfl, List.prefix_rfl, List.prefix_rfl⟩

/-- `SummaryExt` is transitive. -/
theorem summaryExt_trans {a b c : SessionSummary}
    (h1 : SummaryExt a b) (h2 : SummaryExt b c) : SummaryExt a c :=
  ⟨Nat.le_trans h1.1 h2.1, h1.2.1.trans h2.2.1, h1.2.2.1.trans h2.2.2.1,
    h1.2.2.2.1.trans h2.2.2.2.1, h1.2.2.2.2.trans h2.2.2.2.2⟩

/-- One applied file never decreases the counter and only appends. -/
theorem applyFileToSummary_ext (s : SessionSummary) (f : AppliedFile) :
    SummaryExt s (applyFileToSummary s f) ∧
      (applyFileToSummary s f).totalInteractions = s.totalInteractions := by
  unfold applyFileToSummary
  cases f.action with
  | created =>
    by_cases h1 : f.path ∈ s.filesCreated
    · rw [if_pos h1]
      exact ⟨summaryExt_refl s, rfl⟩
    · rw [if_neg h1]
      cases f.componentName with
      | none =>
        exact ⟨⟨Nat.le_refl _, List.prefix_append _ _, List.prefix_rfl,
          List.prefix_rfl, List.prefix_rfl⟩, rfl⟩
      | some cn =>
        dsimp only
        by_cases h2 : cn ≠ "" ∧ cn ∉ s.componentsCreated
        · rw [if_pos h2]
          exact ⟨⟨Nat.le_refl _, List.prefix_append _ _, List.prefix_rfl,
            List.prefix_rfl, List.prefix_append _ _⟩, rfl⟩
        · rw [if_neg h2]
          exact ⟨⟨Nat.le_refl _, List.prefix_append _ _, List.prefix_rfl,
            List.prefix_rfl, List.prefix_rfl⟩, rfl⟩
  | modified =>
    by_cases h1 : f.path ∈ s.filesModified
    · rw [if_pos h1]
      exact ⟨summaryExt_refl s, rfl⟩
    · rw [if_neg h1]
      exact ⟨⟨Nat.le_refl _, List.prefix_rfl, List.prefix_append _ _,
        List.prefix_rfl, List.prefix_rfl⟩, rfl⟩
  | deleted => exact ⟨summaryExt_refl s, rfl⟩

/-- One package never decreases the counter and only appends. -/
theorem addPackageToSummary_ext (s : SessionSummary) (pkg : String) :
    SummaryExt s (addPackageToSummary s pkg) ∧
      (addPackageToSummary s pkg).totalInteractions = s.totalInteractions := by
  unfold addPackageToSummary
  by_cases h1 : pkg ∈ s.packagesAdded
  · rw [if_pos h1]
    exact ⟨summaryExt_refl s, rfl⟩
  · rw [if_neg h1]
    exact ⟨⟨Nat.le_refl _, List.prefix_rfl, List.prefix_rfl,
      List.prefix_append _ _, List.prefix_rfl⟩, rfl⟩

/-- The applied-file fold extends the summary and keeps the counter. -/
theorem foldl_applyFile_ext (files : List AppliedFile) (s : SessionSummary) :
    SummaryExt s (files.foldl applyFileToSummary s) ∧
      (files.foldl applyFileToSummary s).totalInteractions = s.totalInteractions := by
  refine @foldl_preserve _ _
    (fun acc => SummaryExt s acc ∧ acc.totalInteractions = s.totalInteractions) _
    files (fun acc f _ hacc => ?_) s ⟨summaryExt_refl s, rfl⟩
  obtain ⟨he, ht⟩ := applyFileToSummary_ext acc f
  exact ⟨summaryExt_trans hacc.1 he, ht.trans hacc.2⟩

/-- The package fold extends the summary and keeps the counter. -/
theorem foldl_addPackage_ext (pkgs : List String) (s : SessionSummary) :
    SummaryExt s (pkgs.foldl addPackageToSummary s) ∧
      (pkgs.foldl addPackageToSummary s).totalInteractions = s.totalInteractions := by
  refine @foldl_preserve _ _
    (fun acc => SummaryExt s acc ∧ acc.totalInteractions = s.totalInteractions) _
    pkgs (fun acc p _ hacc => ?_) s ⟨summaryExt_refl s, rfl⟩
  obtain ⟨he, ht⟩ := addPackageToSummary_ext acc p
  exact ⟨summaryExt_trans hacc.1 he, ht.trans hacc.2⟩

/-- The new summary bumps the counter by exactly one and extends the lists. -/
theorem computeNewSummary_spec (old : Option SessionSummary) (r : AiResponse) :
    (computeNewSummary old r).totalInteractions =
      (old.getD emptySessionSummary).totalInteractions + 1 ∧
    SummaryExt (old.getD emptySessionSummary) (computeNewSummary old r) := by
  unfold computeNewSummary
  set s0 := old.getD emptySessionSummary with hs0
  set s1 : SessionSummary := { s0 with
    totalInteractions := s0.totalInteractions + 1,
    lastActionSummary := r.actionSummary } with hs1
  have hexts1 : SummaryExt s0 s1 :=
    ⟨Nat.le_succ _, List.prefix_rfl, List.prefix_rfl, List.prefix_rfl, List.prefix_rfl⟩
  have hs1total : s1.totalInteractions = s0.totalInteractions + 1 := rfl
  cases hf : r.appliedFiles with
  | none =>
    cases hp : r.packagesToInstall with
    | none => exact ⟨hs1total, hexts1⟩
    | some pkgs =>
      obtain ⟨he, ht⟩ := foldl_addPackage_ext pkgs s1
      exact ⟨ht.trans hs1total, summaryExt_trans hexts1 he⟩
  | some files =>
    obtain ⟨hef, htf⟩ := foldl_applyFile_ext files s1
    cases hp : r.packagesToInstall with
    | none => exact ⟨htf.trans hs1total, summaryExt_trans hexts1 hef⟩
    | some pkgs =>
      obtain ⟨hep, htp⟩ := foldl_addPackage_ext pkgs (files.foldl applyFileToSummary s1)
      exact ⟨(htp.trans htf).trans hs1total,
        summaryExt_trans hexts1 (summaryExt_trans hef hep)⟩

/-- Projection of `updateConversationMemory` onto the session summary. -/
theorem updateConversationMemory_summary (state : ConversationState)
    (userMessage : ConversationMessage) (aiResponse : Option AiResponse) (now : Nat) :
    (updateConversationMemory state userMessage aiResponse now).context.sessionSummary =
      match aiResponse with
      | some r => some (computeNewSummary state.context.sessionSummary r)
      | none => state.context.sessionSummary := by
  cases aiResponse with
  | none =>
    show (applyEviction { state with context :=
        { state.context with messages := state.context.messages ++ [userMessage] } }
      ).context.sessionSummary = _
    rw [applyEviction_summary]
  | some r =>
    show (applyEviction (updateSessionSummary { state with context :=
        { state.context with messages :=
          (state.context.messages ++ [userMessage]) ++ [aiMessageOf r now] } } r)
      ).context.sessionSummary = _
    rw [applyEviction_summary]
    rfl

/-- Claim C3: `totalInteractions` increments by exactly one per call carrying
an AI result and by zero for a user-only call, and the counter together with
the cumulative lists is monotonically non-decreasing across any sequence of
calls — eviction never removes entries from them. -/
theorem session_summary_monotone_spec :
    (∀ state userMessage r now,
        (updateConversationMemory state userMessage (some r) now).context.sessionSummary =
          some (computeNewSummary state.context.sessionSummary r) ∧
        (summaryOf (updateConversationMemory state userMessage (some r) now)).totalInteractions
          = (summaryOf state).totalInteractions + 1 ∧
        SummaryExt (summaryOf state)
          (summaryOf (updateConversationMemory state userMessage (some r) now))) ∧
    (∀ state userMessage now,
        (updateConversationMemory state userMessage none now).context.sessionSummary =
          state.context.sessionSummary) ∧
    (∀ state steps, SummaryExt (summaryOf state) (summaryOf (runMemoryUpdates state steps))) := by
  have hstep : ∀ state userMessage aiResponse now,
      SummaryExt (summaryOf state)
        (summaryOf (updateConversationMemory state userMessage aiResponse now)) := by
    intro state userMessage aiResponse now
    unfold summaryOf
    rw [updateConversationMemory_summary]
    cases aiResponse with
    | none => exact summaryExt_refl _
    | some r =>
      show SummaryExt _ ((some (computeNewSummary state.context.sessionSummary r)).getD _)
      exact (computeNewSummary_spec state.context.sessionSummary r).2
  refine ⟨fun state userMessage r now => ?_, fun state userMessage now => ?_,
    fun state steps => ?_⟩
  · have hsum := updateConversationMemory_summary state userMessage (some r) now
    refine ⟨hsum, ?_, hstep state userMessage (some r) now⟩
    unfold summaryOf
    rw [hsum]
    exact (computeNewSummary_spec state.context.sessionSummary r).1
  · exact updateConversationMemory_summary state userMessage none now
  · unfold runMemoryUpdates
    refine @foldl_preserve _ _
      (fun s => SummaryExt (summaryOf state) (summaryOf s)) _
      steps (fun s step _ hs => ?_) state (summaryExt_refl _)
    exact summaryExt_trans hs (hstep s step.1 step.2.1 step.2.2)

/-- Claim C4 evidence (code bug): on the chronological log
`[user 1, assistant 1]` — a single fully answered interaction as produced by
`updateConversationMemory` itself — the reverse scan of
`getRecentInteractions` returns the user message with a `null` assistant
side, skipping the assistant response that immediately follows it; on
`[user 1, assistant 1, user 2, assistant 2]` it pairs user 2 with
assistant 1, the assistant message *preceding* it, and drops assistant 2
altogether. -/
theorem getRecentInteractions_pairs_preceding_assistant :
    getRecentInteractions [demoUser 1, demoAssistant 1] 5 =
      [{ userMessage := demoUser 1, aiMessage := none }] ∧
    getRecentInteractions [demoUser 1, demoAssistant 1, demoUser 2, demoAssistant 2] 5 =
      [{ userMessage := demoUser 1, aiMessage := none },
       { userMessage := demoUser 2, aiMessage := some (demoAssistant 1) }] := by
  exact ⟨by decide, by decide⟩

/-! ### Empty digest (claim C10) -/
/-- Claim C10: `buildConversationHistoryPrompt` returns the empty string
whenever the state is absent or its message log holds at most one message,
regardless of any accumulated summary, topic, or project-evolution data. -/
theorem empty_digest_spec :
    (∀ env, buildConversationHistoryPrompt env none = "") ∧
    (∀ env state, state.context.messages.length ≤ 1 →
        buildConversationHistoryPrompt env (some state) = "") := by
  constructor
  · intro env
    rfl
  · intro env state h
    have hraw : rawDigest env (some state) = "" := by
      show (if state.context.messages.length ≤ 1 then ""
        else joinNL (conversationSections env state)) = ""
      rw [if_pos h]
    show (if (rawDigest env (some state)).length > 2000 then
        jsSubstring (rawDigest env (some state)) 2000 ++ truncationNotice
      else rawDigest env (some state)) = ""
    rw [hraw]
    rfl

/-- The C10 theorem applied at a concrete single-message state carrying a
summary, a topic and a major change. -/
theorem empty_digest_spec_witness :
    buildConversationHistoryPrompt
      { now := 0, fmtTime := fun _ => "", matchTargeted := fun _ => false,
        matchComprehensive := fun _ => false }
      (some { conversationId := "c", startedAt := 0, lastUpdated := 0,
              context := { messages := [demoUser 1],
                           sessionSummary := some { totalInteractions := 7,
                                                    filesCreated := ["/a/App.jsx"],
                                                    filesModified := ["/a/App.jsx"],
                                                    packagesAdded := ["react"],
                                                    componentsCreated := ["App"],
                                                    lastActionSummary := some "did things" },
                           currentTopic := some "hero section",
                           projectEvolution := { majorChanges := [{ description := "rebuilt",
                                                                    timestamp := 3 }] } } })
      = "" := by
  exact empty_digest_spec.2 _ _ (by decide)

/-! ### Digest length clamp (claim C6) -/
/-- Length of `substring(0, n)`. -/
theorem jsSubstring_length (s : String) (n : Nat) :
    (jsSubstring s n).length = min n s.length := by
  unfold jsSubstring
  rw [String.length_mk, List.length_take]
  rfl

/-- Claim C6: for every conversation state the digest length is at most 2000
characters plus the fixed truncation-notice length, the notice is appended
(onto exactly the first 2000 characters) precisely when the raw digest
exceeds 2000 characters, and otherwise the digest is returned unclamped. -/
theorem digest_length_spec :
    (∀ env state, (buildConversationHistoryPrompt env state).length
        ≤ 2000 + truncationNotice.length) ∧
    (∀ env state, (rawDigest env state).length > 2000 →
        buildConversationHistoryPrompt env state =
          jsSubstring (rawDigest env state) 2000 ++ truncationNotice ∧
        (buildConversationHistoryPrompt env state).length
          = 2000 + truncationNotice.length) ∧
    (∀ env state, (rawDigest env state).length ≤ 2000 →
        buildConversationHistoryPrompt env state = rawDigest env state) := by
  have hb : ∀ env state, buildConversationHistoryPrompt env state =
      if (rawDigest env state).length > 2000 then
        jsSubstring (rawDigest env state) 2000 ++ truncationNotice
      else rawDigest env state := fun env state => rfl
  have hlen : ∀ env state, (rawDigest env state).length > 2000 →
      (jsSubstring (rawDigest env state) 2000 ++ truncationNotice).length
        = 2000 + truncationNotice.length := by
    intro env state h
    rw [String.length_append, jsSubstring_length,
      Nat.min_eq_left (Nat.le_of_lt h)]
  refine ⟨fun env state => ?_, fun env state h => ?_, fun env state h => ?_⟩
  · rw [hb]
    by_cases h : (rawDigest env state).length > 2000
    · rw [if_pos h, hlen env state h]
    · rw [if_neg h]
      omega
  · rw [hb, if_pos h]
    exact ⟨rfl, hlen env state h⟩
  · rw [hb, if_neg (by omega)]

/-- A section string is embedded whole in the joined section text. -/
theorem mem_joinSep_isInfix {sep : String} :
    ∀ {l : List String} {s : String}, s ∈ l → s.data <:+: (joinSep sep l).data
  | [], s, h => absurd h (List.not_mem_nil s)
  | [x], s, h => by
    rw [List.mem_singleton] at h
    subst h
    exact List.infix_rfl
  | x :: y :: rest, s, h => by
    rcases List.mem_cons.mp h with rfl | h
    · show s.data <:+: (s ++ sep ++ joinSep sep (y :: rest)).data
      rw [String.data_append, String.data_append, List.append_assoc]
      exact (List.prefix_append _ _).isInfix
    · have ih := @mem_joinSep_isInfix sep _ _ h
      show s.data <:+: (x ++ sep ++ joinSep sep (y :: rest)).data
      rw [String.data_append, String.data_append]
      exact ih.trans (List.suffix_append _ _).isInfix

/-- A member section is never longer than the joined section text. -/
theorem mem_joinSep_length {sep : String} {l : List String} {s : String}
    (h : s ∈ l) : s.length ≤ (joinSep sep l).length :=
  (mem_joinSep_isInfix h).length_le

/-- The big demonstration state renders its sections with the long topic
line last. -/
theorem demoBigState_sections :
    conversationSections demoEnv demoBigState =
      demoBigPrefixSections ++
        ["\n### Current Focus: " ++ String.mk (List.replicate 2100 'x')] := rfl

/-- The C6 theorem applied at concrete states on both sides of the cap: the
long-topic digest is clamped to exactly the cap-plus-notice length, and the
short digest is returned unclamped. -/
theorem digest_length_spec_witness :
    (buildConversationHistoryPrompt demoEnv (some demoBigState)).length
        = 2000 + truncationNotice.length ∧
      buildConversationHistoryPrompt demoEnv (some demoSmallState)
        = rawDigest demoEnv (some demoSmallState) := by
  have hmem : ("\n### Current Focus: " ++ String.mk (List.replicate 2100 'x'))
      ∈ conversationSections demoEnv demoBigState := by
    rw [demoBigState_sections]
    exact List.mem_append_right _ (List.mem_singleton_self _)
  have hraw : rawDigest demoEnv (some demoBigState)
      = joinNL (conversationSections demoEnv demoBigState) := by
    show (if demoBigState.context.messages.length ≤ 1 then ""
      else joinNL (conversationSections demoEnv demoBigState)) = _
    rw [if_neg (by decide)]
  have h1 : ("\n### Current Focus: " ++ String.mk (List.replicate 2100 'x')).length
      ≤ (joinNL (conversationSections demoEnv demoBigState)).length :=
    @mem_joinSep_length "\n" _ _ hmem
  have ha : ("\n### Current Focus: ").length = 20 := by decide
  have hb : (String.mk (List.replicate 2100 'x')).length = 2100 := by
    rw [String.length_mk, List.length_replicate]
  have h2 : ("\n### Current Focus: " ++ String.mk (List.replicate 2100 'x')).length
      = 2120 := by
    rw [String.length_append, ha, hb]
  have hlen : 2000 < (rawDigest demoEnv (some demoBigState)).length := by
    rw [hraw]
    rw [h2] at h1
    omega
  exact ⟨(digest_length_spec.2.1 demoEnv (some demoBigState) hlen).2,
    digest_length_spec.2.2 demoEnv (some demoSmallState)
      (by set_option maxRecDepth 4000 in decide)⟩

/-! ### File-body embedding and truncation (claim C7) -/
/-- Prepending keeps a contiguous sublist contiguous. -/
theorem isInfix_append_left {α : Type} (l₀ : List α) {l₁ l₂ : List α}
    (h : l₁ <:+: l₂) : l₁ <:+: l₀ ++ l₂ :=
  h.trans (List.suffix_append _ _).isInfix

/-- Appending keeps a contiguous sublist contiguous. -/
theorem isInfix_append_right {α : Type} (l₀ : List α) {l₁ l₂ : List α}
    (h : l₁ <:+: l₂) : l₁ <:+: l₂ ++ l₀ :=
  h.trans (List.prefix_append _ _).isInfix

/-- A primary file's body appears whole inside its section. -/
theorem primarySection_contains (path content : String) :
    content.data <:+: (primarySection path content).data := by
  unfold primarySection
  simp only [String.data_append]
  exact isInfix_append_right _ (isInfix_append_right _ (isInfix_append_right _
    (isInfix_append_left _ List.infix_rfl)))

/-- A context file's rendered body (clipped when over 2000 characters)
appears whole inside its section. -/
theorem contextSection_contains (path content : String) :
    (if content.length > 2000 then jsSubstring content 2000 ++ contextTruncMarker
     else content).data <:+: (contextSection path content).data := by
  unfold contextSection
  simp only [String.data_append]
  exact isInfix_append_right _ (isInfix_append_right _ (isInfix_append_right _
    (isInfix_append_left _ List.infix_rfl)))

/-- The section of a listed primary file is one of the pushed sections. -/
theorem primarySection_mem {primaryFiles contextFiles : List (String × String)}
    {path content : String} (h : (path, content) ∈ primaryFiles) :
    primarySection path content ∈ formatSections primaryFiles contextFiles := by
  unfold formatSections
  apply List.mem_append_left
  apply List.mem_append_left
  apply List.mem_append_right
  have hne : primaryFiles.length ≠ 0 := by
    intro h0
    rw [List.length_eq_zero] at h0
    subst h0
    exact List.not_mem_nil _ h
  rw [if_neg hne]
  exact List.mem_map.mpr ⟨(path, content), h, rfl⟩

/-- The section of a listed context file is one of the pushed sections. -/
theorem contextSection_mem {primaryFiles contextFiles : List (String × String)}
    {path content : String} (h : (path, content) ∈ contextFiles) :
    contextSection path content ∈ formatSections primaryFiles contextFiles := by
  unfold formatSections
  apply List.mem_append_left
  apply List.mem_append_right
  have hpos : contextFiles.length > 0 := by
    cases contextFiles with
    | nil => exact absurd h (List.not_mem_nil _)
    | cons a l => exact Nat.succ_pos _
  rw [if_pos hpos]
  apply List.mem_append_right
  exact List.mem_map.mpr ⟨(path, content), h, rfl⟩

/-- Claim C7: `formatFilesForAI` embeds every primary-file body in full with
no truncation for content of any length; every context-file body longer than
2000 characters is embedded as its first 2000 characters followed by the
truncation marker; context files of at most 2000 characters are embedded
unchanged. -/
theorem formatFiles_truncation_spec :
    (∀ primaryFiles contextFiles : List (String × String), ∀ path content,
        (path, content) ∈ primaryFiles →
        content.data <:+: (formatFilesForAI primaryFiles contextFiles).data) ∧
    (∀ primaryFiles contextFiles : List (String × String), ∀ path content,
        (path, content) ∈ contextFiles → content.length > 2000 →
        (jsSubstring content 2000 ++ contextTruncMarker).data <:+:
          (formatFilesForAI primaryFiles contextFiles).data) ∧
    (∀ primaryFiles contextFiles : List (String × String), ∀ path content,
        (path, content) ∈ contextFiles → content.length ≤ 2000 →
        content.data <:+: (formatFilesForAI primaryFiles contextFiles).data) := by
  refine ⟨fun p c path content h => ?_, fun p c path content h hlen => ?_,
    fun p c path content h hlen => ?_⟩
  · exact (primarySection_contains path content).trans
      (mem_joinSep_isInfix (primarySection_mem h))
  · have hc := contextSection_contains path content
    rw [if_pos hlen] at hc
    exact hc.trans (mem_joinSep_isInfix (contextSection_mem h))
  · have hc := contextSection_contains path content
    rw [if_neg (by omega)] at hc
    exact hc.trans (mem_joinSep_isInfix (contextSection_mem h))

/-- The C7 theorem applied at concrete inputs: a short primary body, a long
clipped context body and a short context body, all inside the rendered
prompt. -/
theorem formatFiles_truncation_spec_witness :
    ("const x = 1").data <:+:
      (formatFilesForAI [("/a/App.jsx", "const x = 1")]
        [("/a/Long.jsx", demoLongContent), ("/a/Short.jsx", "body")]).data ∧
    (jsSubstring demoLongContent 2000 ++ contextTruncMarker).data <:+:
      (formatFilesForAI [("/a/App.jsx", "const x = 1")]
        [("/a/Long.jsx", demoLongContent), ("/a/Short.jsx", "body")]).data ∧
    ("body").data <:+:
      (formatFilesForAI [("/a/App.jsx", "const x = 1")]
        [("/a/Long.jsx", demoLongContent), ("/a/Short.jsx", "body")]).data := by
  have hlong : demoLongContent.length = 2500 := by
    unfold demoLongContent
    rw [String.length_mk, List.length_replicate]
  refine ⟨formatFiles_truncation_spec.1 _ _ _ _ (List.mem_singleton_self _),
    formatFiles_truncation_spec.2.1 _ _ "/a/Long.jsx" demoLongContent
      (List.mem_cons_self _ _) (by omega),
    formatFiles_truncation_spec.2.2 _ _ "/a/Short.jsx" "body"
      (List.mem_cons_of_mem _ (List.mem_singleton_self _)) (by decide)⟩

/-! ### Target-selection properties (claim C9) -/
/-- The lexical order is irreflexive. -/
theorem charListLt_irrefl : ∀ l : List Char, charListLt l l = false
  | [] => rfl
  | a :: as => by
    unfold charListLt
    rw [if_neg (by omega), if_neg (by omega)]
    exact charListLt_irrefl as

/-- The lexical order is asymmetric. -/
theorem charListLt_asymm :
    ∀ {l₁ l₂ : List Char}, charListLt l₁ l₂ = true → charListLt l₂ l₁ = false
  | [], [], h => by simp [charListLt] at h
  | [], _ :: _, _ => rfl
  | _ :: _, [], h => by simp [charListLt] at h
  | a :: as, b :: bs, h => by
    unfold charListLt at h ⊢
    by_cases hab : a.toNat < b.toNat
    · rw [if_neg (by omega), if_pos (by omega)]
    · rw [if_neg hab] at h
      by_cases hba : b.toNat < a.toNat
      · rw [if_pos hba] at h
        exact absurd h (by simp)
      · rw [if_neg hba] at h
        rw [if_neg (by omega), if_neg (by omega)]
        exact charListLt_asymm h

/-- Not-lexically-smaller is transitive. -/
theorem charListLt_false_trans :
    ∀ {l₁ l₂ l₃ : List Char}, charListLt l₂ l₁ = false → charListLt l₃ l₂ = false →
      charListLt l₃ l₁ = false
  | [], _, l₃, _, _ => by
    cases l₃ with
    | nil => rfl
    | cons c cs => rfl
  | a :: as, l₂, l₃, h1, h2 => by
    cases l₂ with
    | nil => exact absurd h1 (by simp [charListLt])
    | cons b bs =>
      cases l₃ with
      | nil => exact absurd h2 (by simp [charListLt])
      | cons c cs =>
        unfold charListLt at h1 h2 ⊢
        by_cases hba : b.toNat < a.toNat
        · rw [if_pos hba] at h1
          exact absurd h1 (by simp)
        · by_cases hcb : c.toNat < b.toNat
          · rw [if_pos hcb] at h2
            exact absurd h2 (by simp)
          · rw [if_neg hba] at h1
            rw [if_neg hcb] at h2
            rw [if_neg (by omega)]
            by_cases hac : a.toNat < c.toNat
            · rw [if_pos hac]
            · rw [if_neg hac]
              rw [if_neg (by omega)] at h1
              rw [if_neg (by omega)] at h2
              exact charListLt_false_trans h1 h2

/-- The preference relation is reflexive. -/
theorem resultBeats_refl (a : SearchResult) : resultBeats a a :=
  Or.inr ⟨rfl, Or.inr ⟨rfl, charListLt_irrefl _⟩⟩

/-- The preference relation is transitive. -/
theorem resultBeats_trans {a b c : SearchResult}
    (h1 : resultBeats a b) (h2 : resultBeats b c) : resultBeats a c := by
  rcases h1 with h1 | ⟨hs1, h1⟩
  · rcases h2 with h2 | ⟨hs2, h2⟩
    · exact Or.inl (lt_trans h2 h1)
    · exact Or.inl (hs2 ▸ h1)
  · rcases h2 with h2 | ⟨hs2, h2⟩
    · exact Or.inl (by rw [← hs1]; exact h2)
    · refine Or.inr ⟨hs2.trans hs1, ?_⟩
      rcases h1 with h1 | ⟨hl1, h1⟩
      · rcases h2 with h2 | ⟨hl2, h2⟩
        · exact Or.inl (lt_trans h1 h2)
        · exact Or.inl (by rw [← hl2]; exact h1)
      · rcases h2 with h2 | ⟨hl2, h2⟩
        · exact Or.inl (by rw [hl1]; exact h2)
        · exact Or.inr ⟨hl1.trans hl2, charListLt_false_trans h1 h2⟩

/-- A strictly better result is at least as preferred. -/
theorem betterResult_true_beats {a b : SearchResult}
    (h : betterResult a b = true) : resultBeats a b := by
  unfold betterResult at h
  by_cases hs : a.score = b.score
  · rw [if_neg (fun hne => hne hs)] at h
    by_cases hl : a.lineNumber = b.lineNumber
    · rw [if_neg (fun hne => hne hl)] at h
      exact Or.inr ⟨hs.symm, Or.inr ⟨hl, charListLt_asymm h⟩⟩
    · rw [if_pos hl] at h
      exact Or.inr ⟨hs.symm, Or.inl (of_decide_eq_true h)⟩
  · rw [if_pos hs] at h
    exact Or.inl (of_decide_eq_true h)

/-- A result that is not strictly better is beaten. -/
theorem betterResult_false_beats {a b : SearchResult}
    (h : betterResult a b = false) : resultBeats b a := by
  unfold betterResult at h
  by_cases hs : a.score = b.score
  · rw [if_neg (fun hne => hne hs)] at h
    by_cases hl : a.lineNumber = b.lineNumber
    · rw [if_neg (fun hne => hne hl)] at h
      exact Or.inr ⟨hs, Or.inr ⟨hl.symm, h⟩⟩
    · rw [if_pos hl] at h
      have := of_decide_eq_false h
      exact Or.inr ⟨hs, Or.inl (by omega)⟩
  · rw [if_pos hs] at h
    have := of_decide_eq_false h
    exact Or.inl (by omega)

/-- The selection fold returns a member of the result list. -/
theorem fold_best_mem :
    ∀ (rest : List SearchResult) (r : SearchResult),
      rest.foldl (fun best x => if betterResult x best then x else best) r ∈ r :: rest
  | [], r => List.mem_singleton_self r
  | a :: rest, r => by
    rw [List.foldl_cons]
    by_cases h : betterResult a r = true
    · rw [if_pos h]
      rcases List.mem_cons.mp (fold_best_mem rest a) with h1 | h1
      · rw [h1]
        exact List.mem_cons_of_mem r (List.mem_cons_self a rest)
      · exact List.mem_cons_of_mem r (List.mem_cons_of_mem a h1)
    · rw [if_neg h]
      rcases List.mem_cons.mp (fold_best_mem rest r) with h1 | h1
      · rw [h1]
        exact List.mem_cons_self r (a :: rest)
      · exact List.mem_cons_of_mem r (List.mem_cons_of_mem a h1)

/-- The selection fold returns a result at least as preferred as every
element it has seen. -/
theorem fold_best_beats :
    ∀ (rest : List SearchResult) (r : SearchResult), ∀ x ∈ r :: rest,
      resultBeats (rest.foldl (fun best x => if betterResult x best then x else best) r) x
  | [], r => by
    intro x hx
    rw [List.mem_singleton] at hx
    subst hx
    exact resultBeats_refl x
  | a :: rest, r => by
    intro x hx
    rw [List.foldl_cons]
    by_cases h : betterResult a r = true
    · rw [if_pos h]
      rcases List.mem_cons.mp hx with rfl | hx2
      · exact resultBeats_trans (fold_best_beats rest a a (List.mem_cons_self a rest))
          (betterResult_true_beats h)
      · rcases List.mem_cons.mp hx2 with rfl | hx3
        · exact fold_best_beats rest x x (List.mem_cons_self x rest)
        · exact fold_best_beats rest a x (List.mem_cons_of_mem a hx3)
    · rw [if_neg h]
      have hf : betterResult a r = false := by
        revert h
        cases betterResult a r <;> simp
      rcases List.mem_cons.mp hx with rfl | hx2
      · exact fold_best_beats rest x x (List.mem_cons_self x rest)
      · rcases List.mem_cons.mp hx2 with rfl | hx3
        · exact resultBeats_trans (fold_best_beats rest r r (List.mem_cons_self r rest))
            (betterResult_false_beats hf)
        · exact fold_best_beats rest r x (List.mem_cons_of_mem r hx3)

/-- Claim C9 (spec-modelled): `selectTargetFile` deterministically picks the
single highest-scoring result, tie-broken by earliest line number and then by
file-path lexical order; in particular two equal-score results in different
files resolve to the lexically smaller path, whichever order they arrive in,
and equal-score results on different lines resolve to the earliest line. -/
theorem selectTargetFile_spec :
    (∀ results editType r, selectTargetFile results editType = some r →
        r ∈ results ∧ ∀ x ∈ results, resultBeats r x) ∧
    (∀ results editType, isSinglePointEdit editType = false →
        selectTargetFile results editType = none) ∧
    selectTargetFile [demoResB, demoResA] EditType.updateStyle = some demoResA ∧
    selectTargetFile [demoResA, demoResB] EditType.updateStyle = some demoResA ∧
    selectTargetFile [demoResC, demoResD] EditType.fixIssue = some demoResD := by
  refine ⟨?_, ?_, by decide, by decide, by decide⟩
  · intro results editType r h
    unfold selectTargetFile at h
    by_cases he : isSinglePointEdit editType = true
    · rw [if_pos he] at h
      cases results with
      | nil => exact absurd h (by simp)
      | cons r0 rest =>
        have hr : rest.foldl (fun best x => if betterResult x best then x else best) r0
            = r := by
          injection h
        subst hr
        exact ⟨fold_best_mem rest r0, fold_best_beats rest r0⟩
    · rw [if_neg he] at h
      exact absurd h (by simp)
  · intro results editType h
    unfold selectTargetFile
    rw [if_neg (by rw [h]; exact Bool.false_ne_true)]

/-- The C9 theorem applied at concrete inputs: the selected tied result is a
member that beats its rival, and a broad edit category selects nothing. -/
theorem selectTargetFile_spec_witness :
    (demoResA ∈ [demoResB, demoResA] ∧ resultBeats demoResA demoResB) ∧
      selectTargetFile [demoResA] EditType.refactor = none := by
  have h := selectTargetFile_spec.1 [demoResB, demoResA] EditType.updateStyle demoResA
    (by decide)
  exact ⟨⟨h.1, h.2 demoResB (List.mem_cons_self _ _)⟩,
    selectTargetFile_spec.2.1 [demoResA] EditType.refactor (by decide)⟩

/-- The C1 theorem applied at a concrete input: the built context is
duplicate-free and its member is not a primary file. -/
theorem buildLocalContext_nodup_and_disjoint_witness :
    (buildLocalContext ["/missing.jsx"] demoManifest ["/a/App.jsx"]).Nodup ∧
      "/a/App.jsx" ∉ ["/missing.jsx"] := by
  refine ⟨(buildLocalContext_nodup_and_disjoint ["/missing.jsx"] demoManifest
    ["/a/App.jsx"]).1, ?_⟩
  exact (buildLocalContext_nodup_and_disjoint ["/missing.jsx"] demoManifest
    ["/a/App.jsx"]).2 "/a/App.jsx" (by decide)

end LovableSpec
